import Mathlib

/-!
Verification development for the virtigia-microcurrency ledger engine.

The Go source is shallowly embedded as follows:
* `float64` amounts and balances are modelled as exact rationals (`ℚ`); the
  operations the ledger performs on them (`+`, `-`, `<`) are the only ones used.
* `time.Time` is modelled by `GoTime`, the calendar tuple the two formats
  used by the code (`"20060102150405.000000000"` and RFC3339Nano) print;
  `time.Now()` is an oracle argument of each operation.
* the badger store is an association list from keys (`[]byte`, modelled as
  `List Char` of ASCII bytes) to stored records; `Update` transactions are
  all-or-nothing by the store's contract, so an operation either returns the
  new store or an error and the old store is kept.
* `encoding/json` is modelled by the `Json` tree; a Go
  `map[string]interface{}` is modelled as an association list.
-/

namespace Virtigia

/-- Model of a decoded JSON document / a Go `interface{}` value produced by
`encoding/json` (numbers decode to `float64`, modelled as `ℚ`). -/
inductive Json where
  | jnull : Json
  | jbool : Bool → Json
  | jnum : ℚ → Json
  | jstr : String → Json
  | jarr : List Json → Json
  | jobj : List (String × Json) → Json
  deriving Repr

mutual

def Json.decEq : (a b : Json) → Decidable (a = b)
  | .jnull, .jnull => isTrue rfl
  | .jbool a, .jbool b =>
    if h : a = b then isTrue (h ▸ rfl)
    else isFalse (fun hh => h (Json.jbool.inj hh))
  | .jnum a, .jnum b =>
    if h : a = b then isTrue (h ▸ rfl)
    else isFalse (fun hh => h (Json.jnum.inj hh))
  | .jstr a, .jstr b =>
    if h : a = b then isTrue (h ▸ rfl)
    else isFalse (fun hh => h (Json.jstr.inj hh))
  | .jarr a, .jarr b =>
    match Json.decEqList a b with
    | isTrue h => isTrue (h ▸ rfl)
    | isFalse h => isFalse (fun hh => h (Json.jarr.inj hh))
  | .jobj a, .jobj b =>
    match Json.decEqObj a b with
    | isTrue h => isTrue (h ▸ rfl)
    | isFalse h => isFalse (fun hh => h (Json.jobj.inj hh))
  | .jnull, .jbool _ => isFalse (by simp)
  | .jnull, .jnum _ => isFalse (by simp)
  | .jnull, .jstr _ => isFalse (by simp)
  | .jnull, .jarr _ => isFalse (by simp)
  | .jnull, .jobj _ => isFalse (by simp)
  | .jbool _, .jnull => isFalse (by simp)
  | .jbool _, .jnum _ => isFalse (by simp)
  | .jbool _, .jstr _ => isFalse (by simp)
  | .jbool _, .jarr _ => isFalse (by simp)
  | .jbool _, .jobj _ => isFalse (by simp)
  | .jnum _, .jnull => isFalse (by simp)
  | .jnum _, .jbool _ => isFalse (by simp)
  | .jnum _, .jstr _ => isFalse (by simp)
  | .jnum _, .jarr _ => isFalse (by simp)
  | .jnum _, .jobj _ => isFalse (by simp)
  | .jstr _, .jnull => isFalse (by simp)
  | .jstr _, .jbool _ => isFalse (by simp)
  | .jstr _, .jnum _ => isFalse (by simp)
  | .jstr _, .jarr _ => isFalse (by simp)
  | .jstr _, .jobj _ => isFalse (by simp)
  | .jarr _, .jnull => isFalse (by simp)
  | .jarr _, .jbool _ => isFalse (by simp)
  | .jarr _, .jnum _ => isFalse (by simp)
  | .jarr _, .jstr _ => isFalse (by simp)
  | .jarr _, .jobj _ => isFalse (by simp)
  | .jobj _, .jnull => isFalse (by simp)
  | .jobj _, .jbool _ => isFalse (by simp)
  | .jobj _, .jnum _ => isFalse (by simp)
  | .jobj _, .jstr _ => isFalse (by simp)
  | .jobj _, .jarr _ => isFalse (by simp)

def Json.decEqList : (a b : List Json) → Decidable (a = b)
  | [], [] => isTrue rfl
  | [], _ :: _ => isFalse (by simp)
  | _ :: _, [] => isFalse (by simp)
  | x :: xs, y :: ys =>
    match Json.decEq x y, Json.decEqList xs ys with
    | isTrue h1, isTrue h2 => isTrue (by rw [h1, h2])
    | isFalse h1, _ => isFalse (fun hh => h1 (List.cons.inj hh).1)
    | _, isFalse h2 => isFalse (fun hh => h2 (List.cons.inj hh).2)

def Json.decEqObj : (a b : List (String × Json)) → Decidable (a = b)
  | [], [] => isTrue rfl
  | [], _ :: _ => isFalse (by simp)
  | _ :: _, [] => isFalse (by simp)
  | (k1, v1) :: xs, (k2, v2) :: ys =>
    if h0 : k1 = k2 then
      match Json.decEq v1 v2, Json.decEqObj xs ys with
      | isTrue h1, isTrue h2 => isTrue (by rw [h0, h1, h2])
      | isFalse h1, _ =>
        isFalse (fun hh => h1 (congrArg Prod.snd (List.cons.inj hh).1))
      | _, isFalse h2 => isFalse (fun hh => h2 (List.cons.inj hh).2)
    else isFalse (fun hh => h0 (congrArg Prod.fst (List.cons.inj hh).1))

end

instance : DecidableEq Json := Json.decEq

/-- Model of a Go `time.Time` instant: the calendar fields printed by the
formats used in the source. The zone is modelled as fixed (UTC). -/
structure GoTime where
  year : Nat
  month : Nat
  day : Nat
  hour : Nat
  minute : Nat
  second : Nat
  nanosec : Nat
  deriving DecidableEq, Repr

/-- Chronological strict order on instants: for calendar-valid fields this is
exactly Go's `Time.Before`. -/
def GoTime.ltb (a b : GoTime) : Bool :=
  (a.year < b.year) ||
  (a.year == b.year && ((a.month < b.month) ||
  (a.month == b.month && ((a.day < b.day) ||
  (a.day == b.day && ((a.hour < b.hour) ||
  (a.hour == b.hour && ((a.minute < b.minute) ||
  (a.minute == b.minute && ((a.second < b.second) ||
  (a.second == b.second && (a.nanosec < b.nanosec))))))))))))

/-- Field bounds under which the fixed-width time formats are faithful; every
real calendar instant of years 1..9999 satisfies them. -/
def GoTime.Valid (t : GoTime) : Prop :=
  t.year < 10000 ∧ t.month < 100 ∧ t.day < 100 ∧ t.hour < 100 ∧
  t.minute < 100 ∧ t.second < 100 ∧ t.nanosec < 1000000000

instance (t : GoTime) : Decidable t.Valid := by
  unfold GoTime.Valid
  infer_instance

/-- The ASCII digit character for `d` (meaningful for `d < 10`). -/
def dchar (d : Nat) : Char := Char.ofNat (48 + d)

/-- `n` printed in decimal, left-padded with zeros to exactly `w` digits
(the value printed is `n % 10^w`). -/
def padNat : Nat → Nat → List Char
  | 0, _ => []
  | w + 1, n => padNat w (n / 10) ++ [dchar (n % 10)]

/-- Strict lexicographic order on byte strings: `bytes.Compare a b < 0`.
Badger iterates keys in this order. -/
def bytesLtb : List Char → List Char → Bool
  | [], [] => false
  | [], _ :: _ => true
  | _ :: _, [] => false
  | a :: as, b :: bs => a < b || (a == b && bytesLtb as bs)

/-- Go layout `"20060102150405.000000000"` (zero-padded, fixed width). -/
def timeFormatChars (t : GoTime) : List Char :=
  padNat 4 t.year ++ padNat 2 t.month ++ padNat 2 t.day ++
  padNat 2 t.hour ++ padNat 2 t.minute ++ padNat 2 t.second ++
  ['.'] ++ padNat 9 t.nanosec

/-- `generateID` from the source: `time.Now().Format("20060102150405.000000000")`
passed through `filepath.Base`, which is the identity on a string with no
path separator. The creation instant is the oracle argument. -/
def generateID (now : GoTime) : String := ⟨timeFormatChars now⟩

/-- A string without the key-schema separator `':'`. -/
def ColonFree (s : String) : Prop := ':' ∉ s.data

instance (s : String) : Decidable (ColonFree s) := by
  unfold ColonFree
  infer_instance

/-- `models.Wallet`. -/
structure Wallet where
  WalletID : String
  Balance : ℚ
  deriving DecidableEq, Repr

/-- `models.Transaction`; `AdditionalData` models `map[string]interface{}`
as an association list. -/
structure Transaction where
  ID : String
  WalletID : String
  Amount : ℚ
  Description : String
  AdditionalData : List (String × Json)
  Timestamp : GoTime
  deriving DecidableEq, Repr

/-- Key of a wallet record: `[]byte("wallet:" + w.WalletID)`. -/
def walletKeyS (walletID : String) : List Char :=
  ("wallet:" ++ walletID).data

def Wallet.Key (w : Wallet) : List Char := walletKeyS w.WalletID

/-- Primary key of a transaction record: `[]byte("transaction:" + t.ID)`. -/
def txKeyS (id : String) : List Char :=
  ("transaction:" ++ id).data

def Transaction.Key (t : Transaction) : List Char := txKeyS t.ID

/-- Wallet-scoped key of a transaction record:
`[]byte("wallet:" + t.WalletID + ":transaction:" + t.ID)`. -/
def txWalletKeyS (walletID id : String) : List Char :=
  ("wallet:" ++ walletID ++ ":transaction:" ++ id).data

def Transaction.WalletKey (t : Transaction) : List Char :=
  txWalletKeyS t.WalletID t.ID

/-- The iteration key range of `GetTransactionsByWallet`:
`[]byte("wallet:" + walletID + ":transaction:")`. -/
def scanKeyS (walletID : String) : List Char :=
  ("wallet:" ++ walletID ++ ":transaction:").data

/-- A value stored in badger: the JSON bytes of either record kind. -/
inductive Val where
  | wv (w : Wallet) : Val
  | tv (t : Transaction) : Val
  deriving DecidableEq, Repr

/-- One badger instance: an association list from keys to stored values. -/
abbrev Store := List (List Char × Val)

def storeGet : Store → List Char → Option Val
  | [], _ => none
  | (k, v) :: s, key => if k = key then some v else storeGet s key

/-- `txn.Set`: overwrite the record at `key` (or add it). -/
def storeSet : Store → List Char → Val → Store
  | [], key, v => [(key, v)]
  | (k, w) :: s, key, v =>
    if k = key then (k, v) :: s else (k, w) :: storeSet s key v

/-- Go's zero `time.Time` (0001-01-01 00:00:00 UTC). -/
def zeroGoTime : GoTime := ⟨1, 1, 1, 0, 0, 0, 0⟩

def zeroWallet : Wallet := ⟨"", 0⟩

def zeroTransaction : Transaction := ⟨"", "", 0, "", [], zeroGoTime⟩

/-- Models `wallet.FromJSON(bytes of v)` starting from `init`:
`encoding/json` unmarshals leniently, setting only the struct fields whose
JSON tag is present in the document. A stored transaction document carries
`wallet_id` but no `balance`. -/
def decodeWalletVal (v : Val) (init : Wallet) : Wallet :=
  match v with
  | .wv w => w
  | .tv t => { WalletID := t.WalletID, Balance := init.Balance }

/-- Models `tx.FromJSON(bytes of v)` into a zero `models.Transaction`.
A stored wallet document carries `wallet_id` but none of the other tags. -/
def decodeTxVal (v : Val) : Transaction :=
  match v with
  | .tv t => t
  | .wv w => { zeroTransaction with WalletID := w.WalletID }

/-- `DB.GetWallet`: read the wallet record, defaulting to a zero-balance
wallet when the key is absent. -/
def GetWallet (s : Store) (walletID : String) : Wallet :=
  match storeGet s (walletKeyS walletID) with
  | none => { WalletID := walletID, Balance := 0 }
  | some v => decodeWalletVal v { WalletID := walletID, Balance := 0 }

/-- `DB.GetWalletBalance`. -/
def GetWalletBalance (s : Store) (walletID : String) : ℚ :=
  (GetWallet s walletID).Balance

inductive LedgerError where
  | invalidAmount : LedgerError
  | insufficientFunds : LedgerError
  deriving DecidableEq, Repr

/-- `DB.AddCurrency`. The badger `Update` transaction is all-or-nothing, so
the result is either the fully updated store with the committed transaction,
or an error (and the caller keeps the old store). -/
def AddCurrency (s : Store) (walletID : String) (amount : ℚ)
    (description : String) (additionalData : List (String × Json))
    (now : GoTime) : Except LedgerError (Store × Transaction) :=
  if amount ≤ 0 then
    .error .invalidAmount
  else
    let tx : Transaction :=
      { ID := generateID now, WalletID := walletID, Amount := amount,
        Description := description, AdditionalData := additionalData,
        Timestamp := now }
    let wallet := GetWallet s walletID
    let wallet := { wallet with Balance := wallet.Balance + amount }
    let s := storeSet s wallet.Key (.wv wallet)
    let s := storeSet s tx.Key (.tv tx)
    let s := storeSet s tx.WalletKey (.tv tx)
    .ok (s, tx)

/-- `DB.RemoveCurrency`. A missing wallet record or a balance below the
requested amount aborts the transaction with `ErrInsufficientFunds`. -/
def RemoveCurrency (s : Store) (walletID : String) (amount : ℚ)
    (description : String) (additionalData : List (String × Json))
    (now : GoTime) : Except LedgerError (Store × Transaction) :=
  if amount ≤ 0 then
    .error .invalidAmount
  else
    let tx : Transaction :=
      { ID := generateID now, WalletID := walletID, Amount := -amount,
        Description := description, AdditionalData := additionalData,
        Timestamp := now }
    match storeGet s (walletKeyS walletID) with
    | none => .error .insufficientFunds
    | some v =>
      let wallet := decodeWalletVal v { WalletID := walletID, Balance := 0 }
      if wallet.Balance < amount then
        .error .insufficientFunds
      else
        let wallet := { wallet with Balance := wallet.Balance - amount }
        let s := storeSet s wallet.Key (.wv wallet)
        let s := storeSet s tx.Key (.tv tx)
        let s := storeSet s tx.WalletKey (.tv tx)
        .ok (s, tx)

/-- One credit or debit request: the caller's arguments plus the
`time.Now()` oracle value at which `generateID` is evaluated. -/
inductive Op where
  | add (walletID : String) (amount : ℚ) (description : String)
      (additionalData : List (String × Json)) (now : GoTime) : Op
  | remove (walletID : String) (amount : ℚ) (description : String)
      (additionalData : List (String × Json)) (now : GoTime) : Op
  deriving DecidableEq, Repr

def Op.walletID : Op → String
  | .add w _ _ _ _ => w
  | .remove w _ _ _ _ => w

def Op.now : Op → GoTime
  | .add _ _ _ _ n => n
  | .remove _ _ _ _ n => n

/-- Run one operation; on error the store is unchanged (badger rolls the
transaction back) and no transaction is committed. -/
def applyOp (s : Store) (op : Op) : Store × Option Transaction :=
  match op with
  | .add w a d ad n =>
    match AddCurrency s w a d ad n with
    | .ok (s', t) => (s', some t)
    | .error _ => (s, none)
  | .remove w a d ad n =>
    match RemoveCurrency s w a d ad n with
    | .ok (s', t) => (s', some t)
    | .error _ => (s, none)

def runOps (s : Store) : List Op → Store
  | [] => s
  | op :: ops => runOps (applyOp s op).1 ops

/-!
### Model of go1.20 `sort.Slice`

`DB.sortTransactions` delegates to `sort.Slice`, which go1.19+ implements
with pdqsort (`sort/zsortfunc.go`); `sort.Slice` is documented as **not**
guaranteed to be stable. The functions below port that algorithm. Loops are
given explicit fuel; the fuel passed by `goSortSlice` is ample for every
evaluation done here, and running out would return the array unchanged.
Reads out of bounds (which the algorithm never performs on valid input)
return `dflt`.
-/

/-- `arr[i]`, with a default for the (never exercised) out-of-bounds case. -/
def aget (dflt : T) (arr : Array T) (i : Nat) : T := arr.getD i dflt

/-- `data.Swap(i, j)`. -/
def aswap (arr : Array T) (i j : Nat) : Array T :=
  if h : i < arr.size ∧ j < arr.size then arr.swap ⟨i, h.1⟩ ⟨j, h.2⟩ else arr

/-- The inner loop of `insertionSort_func` moves element `x` left past the
already-sorted elements it compares less than; walking the reversed sorted
prefix this is exactly: -/
def insertFromRight (lt : T → T → Bool) : List T → T → List T
  | [], x => [x]
  | y :: ys, x => if lt x y then y :: insertFromRight lt ys x else x :: y :: ys

/-- Effect of `insertionSort_func` on the list of a subrange: left-to-right
insertion, each element moving left while strictly `lt` its neighbour. The
accumulator holds the sorted prefix reversed. -/
def insSortList (lt : T → T → Bool) (l : List T) : List T :=
  (l.foldl (fun acc x => insertFromRight lt acc x) []).reverse

/-- `insertionSort_func(data, a, b)`: sort the subrange `[a, b)` in place. -/
def insertionSortRange (lt : T → T → Bool) (arr : Array T) (a b : Nat) :
    Array T :=
  if a ≤ b ∧ b ≤ arr.size then
    let l := arr.toList
    (l.take a ++ insSortList lt ((l.drop a).take (b - a)) ++ l.drop b).toArray
  else arr

/-- `for i <= j && data.Less(i, a) { i++ }` -/
def partLoopLeft (lt : T → T → Bool) (dflt : T) (arr : Array T) (a : Nat) :
    Nat → Nat → Nat → Nat
  | 0, i, _ => i
  | fuel + 1, i, j =>
    if i ≤ j && lt (aget dflt arr i) (aget dflt arr a) then
      partLoopLeft lt dflt arr a fuel (i + 1) j
    else i

/-- `for i <= j && !data.Less(j, a) { j-- }` -/
def partLoopRight (lt : T → T → Bool) (dflt : T) (arr : Array T) (a : Nat) :
    Nat → Nat → Nat → Nat
  | 0, _, j => j
  | fuel + 1, i, j =>
    if i ≤ j && !lt (aget dflt arr j) (aget dflt arr a) then
      partLoopRight lt dflt arr a fuel i (j - 1)
    else j

/-- The swapping loop of `partition_func` after the first crossing. -/
def partMainLoop (lt : T → T → Bool) (dflt : T) (b : Nat) :
    Nat → Array T → Nat → Nat → Nat → Array T × Nat
  | 0, arr, _, _, j => (arr, j)
  | fuel + 1, arr, a, i, j =>
    let i := partLoopLeft lt dflt arr a (b + 2) i j
    let j := partLoopRight lt dflt arr a (b + 2) i j
    if i > j then (arr, j)
    else partMainLoop lt dflt b fuel (aswap arr i j) a (i + 1) (j - 1)

/-- `partition_func(data, a, b, pivot)`: returns the array, the new pivot
position and whether the range was already partitioned. -/
def partitionGo (lt : T → T → Bool) (dflt : T) (arr : Array T)
    (a b pivot : Nat) : Array T × Nat × Bool :=
  let arr := aswap arr a pivot
  let i := a + 1
  let j := b - 1
  let i := partLoopLeft lt dflt arr a (b + 2) i j
  let j := partLoopRight lt dflt arr a (b + 2) i j
  if i > j then (aswap arr j a, j, true)
  else
    let pr := partMainLoop lt dflt b (b + 2) (aswap arr i j) a (i + 1) (j - 1)
    (aswap pr.1 pr.2 a, pr.2, false)

/-- `for i <= j && !data.Less(a, i) { i++ }` -/
def partEqLoopL (lt : T → T → Bool) (dflt : T) (arr : Array T) (a : Nat) :
    Nat → Nat → Nat → Nat
  | 0, i, _ => i
  | fuel + 1, i, j =>
    if i ≤ j && !lt (aget dflt arr a) (aget dflt arr i) then
      partEqLoopL lt dflt arr a fuel (i + 1) j
    else i

/-- `for i <= j && data.Less(a, j) { j-- }` -/
def partEqLoopR (lt : T → T → Bool) (dflt : T) (arr : Array T) (a : Nat) :
    Nat → Nat → Nat → Nat
  | 0, _, j => j
  | fuel + 1, i, j =>
    if i ≤ j && lt (aget dflt arr a) (aget dflt arr j) then
      partEqLoopR lt dflt arr a fuel i (j - 1)
    else j

/-- The loop of `partitionEqual_func`. -/
def partEqLoop (lt : T → T → Bool) (dflt : T) (b : Nat) :
    Nat → Array T → Nat → Nat → Nat → Array T × Nat
  | 0, arr, _, i, _ => (arr, i)
  | fuel + 1, arr, a, i, j =>
    let i := partEqLoopL lt dflt arr a (b + 2) i j
    let j := partEqLoopR lt dflt arr a (b + 2) i j
    if i > j then (arr, i)
    else partEqLoop lt dflt b fuel (aswap arr i j) a (i + 1) (j - 1)

/-- `partitionEqual_func(data, a, b, pivot)`. -/
def partitionEqualGo (lt : T → T → Bool) (dflt : T) (arr : Array T)
    (a b pivot : Nat) : Array T × Nat :=
  let arr := aswap arr a pivot
  partEqLoop lt dflt b (b + 2) arr a (a + 1) (b - 1)

/-- `order2_func`: order two indices by the data they point at. -/
def order2Go (lt : T → T → Bool) (dflt : T) (arr : Array T)
    (a b sw : Nat) : Nat × Nat × Nat :=
  if lt (aget dflt arr b) (aget dflt arr a) then (b, a, sw + 1) else (a, b, sw)

/-- `median_func`. -/
def medianGo (lt : T → T → Bool) (dflt : T) (arr : Array T)
    (a b c sw : Nat) : Nat × Nat :=
  let (a, b, sw) := order2Go lt dflt arr a b sw
  let (b, _, sw) := order2Go lt dflt arr b c sw
  let (_, b, sw) := order2Go lt dflt arr a b sw
  (b, sw)

/-- `medianAdjacent_func`. -/
def medianAdjacentGo (lt : T → T → Bool) (dflt : T) (arr : Array T)
    (i sw : Nat) : Nat × Nat :=
  medianGo lt dflt arr (i - 1) i (i + 1) sw

inductive Hint where
  | inc : Hint
  | dec : Hint
  | unk : Hint
  deriving DecidableEq, Repr

/-- `choosePivot_func`: median (of medians) of fixed sample positions;
the swap count classifies the range as increasing/decreasing/unknown. -/
def choosePivotGo (lt : T → T → Bool) (dflt : T) (arr : Array T)
    (a b : Nat) : Nat × Hint :=
  let l := b - a
  let sw := 0
  let i := a + l / 4 * 1
  let j := a + l / 4 * 2
  let k := a + l / 4 * 3
  let (j, sw) :=
    if l ≥ 8 then
      if l ≥ 50 then
        let (i, sw) := medianAdjacentGo lt dflt arr i sw
        let (j, sw) := medianAdjacentGo lt dflt arr j sw
        let (k, sw) := medianAdjacentGo lt dflt arr k sw
        medianGo lt dflt arr i j k sw
      else medianGo lt dflt arr i j k sw
    else (j, sw)
  if sw = 0 then (j, .inc)
  else if sw = 12 then (j, .dec)
  else (j, .unk)

/-- `reverseRange_func`. -/
def reverseRangeGo : Nat → Array T → Nat → Nat → Array T
  | 0, arr, _, _ => arr
  | fuel + 1, arr, i, j =>
    if i < j then reverseRangeGo fuel (aswap arr i j) (i + 1) (j - 1) else arr

/-- `while i < b && !less(i, i-1) { i++ }` of `partialInsertionSort_func`. -/
def pinsAdvance (lt : T → T → Bool) (dflt : T) (arr : Array T) (b : Nat) :
    Nat → Nat → Nat
  | 0, i => i
  | fuel + 1, i =>
    if i < b && !lt (aget dflt arr i) (aget dflt arr (i - 1)) then
      pinsAdvance lt dflt arr b fuel (i + 1)
    else i

/-- Left shifting loop of `partialInsertionSort_func`
(`for j := i-1; j >= 1; j--`). -/
def pinsShiftL (lt : T → T → Bool) (dflt : T) :
    Nat → Array T → Nat → Array T
  | 0, arr, _ => arr
  | fuel + 1, arr, j =>
    if j ≥ 1 && lt (aget dflt arr j) (aget dflt arr (j - 1)) then
      pinsShiftL lt dflt fuel (aswap arr j (j - 1)) (j - 1)
    else arr

/-- Right shifting loop of `partialInsertionSort_func`
(`for j := i+1; j < b; j++`). -/
def pinsShiftR (lt : T → T → Bool) (dflt : T) (b : Nat) :
    Nat → Array T → Nat → Array T
  | 0, arr, _ => arr
  | fuel + 1, arr, j =>
    if j < b && lt (aget dflt arr j) (aget dflt arr (j - 1)) then
      pinsShiftR lt dflt b fuel (aswap arr j (j - 1)) (j + 1)
    else arr

/-- The `maxSteps = 5` outer loop of `partialInsertionSort_func`. -/
def pinsSteps (lt : T → T → Bool) (dflt : T) :
    Nat → Array T → Nat → Nat → Nat → Array T × Bool
  | 0, arr, _, _, _ => (arr, false)
  | step + 1, arr, a, b, i =>
    let i := pinsAdvance lt dflt arr b (b + 1) i
    if i = b then (arr, true)
    else if b - a < 50 then (arr, false)
    else
      let arr := aswap arr i (i - 1)
      let arr := if i - a ≥ 2 then pinsShiftL lt dflt (b + 1) arr (i - 1) else arr
      let arr := if b - i ≥ 2 then pinsShiftR lt dflt b (b + 1) arr (i + 1) else arr
      pinsSteps lt dflt step arr a b i

/-- `partialInsertionSort_func(data, a, b)`. -/
def partialInsertionSortGo (lt : T → T → Bool) (dflt : T) (arr : Array T)
    (a b : Nat) : Array T × Bool :=
  pinsSteps lt dflt 5 arr a b (a + 1)

/-- `siftDown_func`. -/
def siftDownGo (lt : T → T → Bool) (dflt : T) :
    Nat → Array T → Nat → Nat → Nat → Array T
  | 0, arr, _, _, _ => arr
  | fuel + 1, arr, root, hi, first =>
    let child := 2 * root + 1
    if child ≥ hi then arr
    else
      let child :=
        if child + 1 < hi &&
            lt (aget dflt arr (first + child)) (aget dflt arr (first + child + 1)) then
          child + 1
        else child
      if !lt (aget dflt arr (first + root)) (aget dflt arr (first + child)) then arr
      else siftDownGo lt dflt fuel (aswap arr (first + root) (first + child)) child hi first

/-- `heapSort_func`. -/
def heapSortGo (lt : T → T → Bool) (dflt : T) (arr : Array T) (a b : Nat) :
    Array T :=
  let first := a
  let hi := b - a
  let arr := ((List.range ((hi - 1) / 2 + 1)).reverse).foldl
    (fun ar i => siftDownGo lt dflt (hi + 1) ar i hi first) arr
  ((List.range hi).reverse).foldl
    (fun ar i => siftDownGo lt dflt (i + 1) (aswap ar first (first + i)) 0 i first) arr

/-- `bits.Len(uint(n))`. -/
def bitsLen (n : Nat) : Nat := if n = 0 then 0 else n.log2 + 1

/-- `nextPowerOfTwo`. -/
def nextPowerOfTwo (n : Nat) : Nat := 2 ^ bitsLen n

/-- The `xorshift` step used by `breakPatterns_func` (64-bit). -/
def xorshiftNext (r : Nat) : Nat :=
  let r := (r ^^^ (r <<< 13)) % 18446744073709551616
  let r := r ^^^ (r >>> 7)
  (r ^^^ (r <<< 17)) % 18446744073709551616

/-- `breakPatterns_func`: swap three positions near the middle with
pseudo-random ones (deterministically seeded by the range length). -/
def breakPatternsGo (arr : Array T) (a b : Nat) : Array T :=
  let length := b - a
  if length ≥ 8 then
    let modulus := nextPowerOfTwo length
    let idx := a + length / 4 * 2 - 1
    let r1 := xorshiftNext length
    let o1 := r1 &&& (modulus - 1)
    let o1 := if o1 ≥ length then o1 - length else o1
    let arr := aswap arr (idx - 1) (a + o1)
    let r2 := xorshiftNext r1
    let o2 := r2 &&& (modulus - 1)
    let o2 := if o2 ≥ length then o2 - length else o2
    let arr := aswap arr idx (a + o2)
    let r3 := xorshiftNext r2
    let o3 := r3 &&& (modulus - 1)
    let o3 := if o3 ≥ length then o3 - length else o3
    aswap arr (idx + 1) (a + o3)
  else arr

/-- `pdqsort_func(data, a, b, limit)`. Its `for` loop is modelled by the
recursive call that keeps the current `wasBalanced`/`wasPartitioned`;
genuine recursive calls restart them at `true` as the Go locals do. -/
def pdqsortGo (lt : T → T → Bool) (dflt : T) :
    Nat → Array T → Nat → Nat → Nat → Bool → Bool → Array T
  | 0, arr, _, _, _, _, _ => arr
  | fuel + 1, arr, a, b, limit, wasBalanced, wasPartitioned =>
    let length := b - a
    if length ≤ 12 then insertionSortRange lt arr a b
    else if limit = 0 then heapSortGo lt dflt arr a b
    else
      let arr1 := if !wasBalanced then breakPatternsGo arr a b else arr
      let limit1 := if !wasBalanced then limit - 1 else limit
      let ph := choosePivotGo lt dflt arr1 a b
      let arr2 := if ph.2 = Hint.dec then reverseRangeGo (b + 1) arr1 a (b - 1) else arr1
      let pivot := if ph.2 = Hint.dec then (b - 1) - (ph.1 - a) else ph.1
      let hint := if ph.2 = Hint.dec then Hint.inc else ph.2
      let pd :=
        if wasBalanced && wasPartitioned && hint = Hint.inc then
          partialInsertionSortGo lt dflt arr2 a b
        else (arr2, false)
      if pd.2 then pd.1
      else if a > 0 && !lt (aget dflt pd.1 (a - 1)) (aget dflt pd.1 pivot) then
        let pe := partitionEqualGo lt dflt pd.1 a b pivot
        pdqsortGo lt dflt fuel pe.1 pe.2 b limit1 wasBalanced wasPartitioned
      else
        let pp := partitionGo lt dflt pd.1 a b pivot
        let mid := pp.2.1
        let leftLen := mid - a
        let rightLen := b - mid
        let bal := decide (min leftLen rightLen ≥ length / 8)
        if leftLen < rightLen then
          pdqsortGo lt dflt fuel
            (pdqsortGo lt dflt fuel pp.1 a mid limit1 true true)
            (mid + 1) b limit1 bal pp.2.2
        else
          pdqsortGo lt dflt fuel
            (pdqsortGo lt dflt fuel pp.1 (mid + 1) b limit1 true true)
            a mid limit1 bal pp.2.2

/-- `sort.Slice(x, less)` of go1.20 on a list. -/
def goSortSlice (lt : T → T → Bool) (dflt : T) (l : List T) : List T :=
  (pdqsortGo lt dflt (l.length * l.length + 64) l.toArray 0 l.length
    (bitsLen l.length) true true).toList

/-- The `timestamp`/`ASC` comparator `transactions[i].Timestamp.Before(...)`. -/
def ltTimestampAsc (x y : Transaction) : Bool :=
  GoTime.ltb x.Timestamp y.Timestamp

/-- The `timestamp`/`DESC` comparator `transactions[i].Timestamp.After(...)`. -/
def ltTimestampDesc (x y : Transaction) : Bool :=
  GoTime.ltb y.Timestamp x.Timestamp

/-- The `amount`/`ASC` comparator. -/
def ltAmountAsc (x y : Transaction) : Bool := decide (x.Amount < y.Amount)

/-- The `amount`/`DESC` comparator. -/
def ltAmountDesc (x y : Transaction) : Bool := decide (y.Amount < x.Amount)

/-- `DB.sortTransactions`: `sort.Slice` with the comparator selected by
`sortBy`/`sortOrder`; any other values leave the slice unsorted. -/
def sortTransactions (transactions : List Transaction)
    (sortBy sortOrder : String) : List Transaction :=
  if sortBy = ("timestamp") then
    if sortOrder = ("ASC") then
      goSortSlice ltTimestampAsc zeroTransaction transactions
    else if sortOrder = ("DESC") then
      goSortSlice ltTimestampDesc zeroTransaction transactions
    else transactions
  else if sortBy = ("amount") then
    if sortOrder = ("ASC") then
      goSortSlice ltAmountAsc zeroTransaction transactions
    else if sortOrder = ("DESC") then
      goSortSlice ltAmountDesc zeroTransaction transactions
    else transactions
  else transactions

/-- The pagination tail of `DB.GetTransactionsByWallet` in the no-overflow
regime, where `offset + limit` stays within int64 so `end := offset + limit`
does not wrap (`transactions[start:end]` after the bounds checks). The exact
Go `int` semantics, including the wrap and the slice panic, is `paginateGo`
below; the two agree whenever `0 ≤ offset`, `0 ≤ limit` and
`offset + limit < 2^63`. -/
def paginate (transactions : List Transaction) (limit offset : Int) :
    List Transaction :=
  let start := offset
  let e := offset + limit
  if start > (transactions.length : Int) then []
  else
    let e := if e > (transactions.length : Int) then (transactions.length : Int) else e
    (transactions.drop start.toNat).take (e - start).toNat

/-- Two's-complement wrap of Go's 64-bit `int` arithmetic: the value of an
int64 whose bit pattern encodes `n` modulo `2^64`. -/
def wrap64 (n : Int) : Int := (n + 2 ^ 63) % 2 ^ 64 - 2 ^ 63

/-- The pagination tail of `DB.GetTransactionsByWallet` with Go's exact
`int` semantics: `end := offset + limit` wraps at int64, and the slice
expression `transactions[start:end]` panics (`none`) unless
`0 ≤ start ≤ end ≤ len` — `end ≤ len` is forced by the clamp, and
`start ≤ len` by the early return. -/
def paginateGo (transactions : List Transaction) (limit offset : Int) :
    Option (List Transaction) :=
  let start := offset
  let e := wrap64 (offset + limit)
  if start > (transactions.length : Int) then some []
  else
    let e := if e > (transactions.length : Int) then (transactions.length : Int) else e
    if 0 ≤ start ∧ start ≤ e then
      some ((transactions.drop start.toNat).take (e - start).toNat)
    else none

/-- The entries the badger iterator visits for the range of
`"wallet:" + walletID + ":transaction:"`. -/
def scanFilter (s : Store) (walletID : String) : Store :=
  s.filter (fun e => (scanKeyS walletID).isPrefixOf e.1)

/-- Insertion into a list sorted by the strict order `lt`, placing the new
element before the first strictly greater one (so after any equal ones). -/
def insertOrdered (lt : T → T → Bool) : List T → T → List T
  | [], x => [x]
  | y :: ys, x => if lt x y then x :: y :: ys else y :: insertOrdered lt ys x

/-- Strict ascending byte order on entry keys. -/
def entryKeyLt (e1 e2 : List Char × Val) : Bool := bytesLtb e1.1 e2.1

/-- Badger iterates keys in ascending byte order; the association list is
unordered, so the scan enumerates the matching entries sorted by key. -/
def scanEntries (s : Store) (walletID : String) : Store :=
  (scanFilter s walletID).foldl (fun acc x => insertOrdered entryKeyLt acc x) []

/-- The transaction list collected by the iteration loop of
`DB.GetTransactionsByWallet`, in scan (key) order. -/
def storeScan (s : Store) (walletID : String) : List Transaction :=
  (scanEntries s walletID).map (fun e => decodeTxVal e.2)

/-- `DB.GetTransactionsByWallet`: scan, sort, then apply the
offset/limit window. -/
def GetTransactionsByWallet (s : Store) (walletID : String)
    (limit offset : Int) (sortBy sortOrder : String) : List Transaction :=
  paginate (sortTransactions (storeScan s walletID) sortBy sortOrder)
    limit offset

/-- `DB.GetTransactionsByWallet` with Go's exact `int` pagination
semantics: scan, sort, then the offset/limit window with int64 wrap, a
panic modelled as `none`. -/
def GetTransactionsByWalletGo (s : Store) (walletID : String)
    (limit offset : Int) (sortBy sortOrder : String) :
    Option (List Transaction) :=
  paginateGo (sortTransactions (storeScan s walletID) sortBy sortOrder)
    limit offset

/-- A store holding one transaction of wallet `"w"`, on which
`GetTransactionsByWallet` with `offset = 1` and `limit = 2^63 - 1` makes
`end := offset + limit` wrap to `-2^63` and the slice panic. -/
def c6Store : Store := [(txWalletKeyS ("w") ("01"), Val.tv zeroTransaction)]

/-!
### HTTP adapter: parameter handling of `Handler.GetTransactionHistory`
-/

def digitVal (c : Char) : Option Nat :=
  if '0' ≤ c ∧ c ≤ '9' then some (c.toNat - 48) else none

def parseDigitsAux : List Char → Nat → Option Nat
  | [], acc => some acc
  | c :: cs, acc =>
    match digitVal c with
    | none => none
    | some d => parseDigitsAux cs (acc * 10 + d)

/-- The value of a non-empty all-digit string. -/
def parseDigits : List Char → Option Nat
  | [] => none
  | cs => parseDigitsAux cs 0

/-- `strconv.Atoi`: optional sign, digits, and a 64-bit range check. -/
def atoi (s : String) : Option Int :=
  let signed : Option Int :=
    match s.data with
    | '+' :: rest => (parseDigits rest).map (fun n => (n : Int))
    | '-' :: rest => (parseDigits rest).map (fun n => -(n : Int))
    | rest => (parseDigits rest).map (fun n => (n : Int))
  match signed with
  | none => none
  | some n =>
    if n < -9223372036854775808 ∨ 9223372036854775807 < n then none else some n

/-- `limit` handling: `DefaultQuery("limit", "50")`, then `Atoi`, then
`if err != nil || limit <= 0 { limit = 50 }`. -/
def parseLimit (q : Option String) : Int :=
  let limitStr := q.getD ("50")
  match atoi limitStr with
  | none => 50
  | some n => if n ≤ 0 then 50 else n

/-- `offset` handling: `DefaultQuery("offset", "0")`, then `Atoi`, then
`if err != nil || offset < 0 { offset = 0 }`. -/
def parseOffset (q : Option String) : Int :=
  let offsetStr := q.getD ("0")
  match atoi offsetStr with
  | none => 0
  | some n => if n < 0 then 0 else n

/-- `sort_by` handling: default `"timestamp"`, reset when not in
`{timestamp, amount}`. -/
def parseSortBy (q : Option String) : String :=
  let v := q.getD ("timestamp")
  if v ≠ ("timestamp") ∧ v ≠ ("amount") then ("timestamp") else v

/-- `sort_order` handling: default `"DESC"`, reset when not in
`{ASC, DESC}`. -/
def parseSortOrder (q : Option String) : String :=
  let v := q.getD ("DESC")
  if v ≠ ("ASC") ∧ v ≠ ("DESC") then ("DESC") else v

/-!
### Environment multiplexer (`DBManager`)
-/

/-- `DBManager.connections`: environment name → badger instance. Each
environment's store lives in its own directory `baseDir/environment`. -/
abbrev Manager := List (String × Store)

def envGet : Manager → String → Option Store
  | [], _ => none
  | (k, s) :: m, env => if k = env then some s else envGet m env

def envSet : Manager → String → Store → Manager
  | [], env, s => [(env, s)]
  | (k, t) :: m, env, s =>
    if k = env then (k, s) :: m else (k, t) :: envSet m env s

/-- `DBManager.GetDB`: return the cached store for the environment, or
lazily create (and cache) a fresh empty one — `NewDB` opens a new badger
directory for a first-seen environment name. -/
def getDB (m : Manager) (environment : String) : Manager × Store :=
  match envGet m environment with
  | some s => (m, s)
  | none => (envSet m environment [], [])

/-- Run a ledger operation through the engine of one environment, as the
HTTP handlers do: resolve the environment, apply, keep the updated store. -/
def runOpEnv (m : Manager) (environment : String) (op : Op) : Manager :=
  let (m', s) := getDB m environment
  envSet m' environment (applyOp s op).1

/-- `GetWalletBalance` observed through the engine of one environment. -/
def observeBalance (m : Manager) (environment walletID : String) : ℚ :=
  GetWalletBalance (getDB m environment).2 walletID

/-- `GetTransactionsByWallet` observed through the engine of one
environment. -/
def observeTransactions (m : Manager) (environment walletID : String)
    (limit offset : Int) (sortBy sortOrder : String) : List Transaction :=
  GetTransactionsByWallet (getDB m environment).2 walletID limit offset
    sortBy sortOrder

/-!
### Spec-side stable sort

Modelled from the spec: "sorts by `sort_by` ∈ {timestamp, amount} and
`sort_order` ∈ {ASC, DESC} (stable sort; ties broken by storage scan
order)". Left-to-right insertion, each element placed before the first
strictly greater one, so equal elements keep their scan order.
-/

def specStableSort (lt : T → T → Bool) (l : List T) : List T :=
  l.foldl (fun acc x => insertOrdered lt acc x) []

/-- Modelled from the spec: the stable sort of the scanned transactions by
the requested field and direction. -/
def specSortTransactions (transactions : List Transaction)
    (sortBy sortOrder : String) : List Transaction :=
  if sortBy = ("timestamp") then
    if sortOrder = ("ASC") then specStableSort ltTimestampAsc transactions
    else if sortOrder = ("DESC") then specStableSort ltTimestampDesc transactions
    else transactions
  else if sortBy = ("amount") then
    if sortOrder = ("ASC") then specStableSort ltAmountAsc transactions
    else if sortOrder = ("DESC") then specStableSort ltAmountDesc transactions
    else transactions
  else transactions

/-!
### JSON codec (`encoding/json` on the two record types)
-/

def isDigitChar (c : Char) : Bool := decide ('0' ≤ c ∧ c ≤ '9')

/-- Digits of the fractional second with trailing zeros trimmed — the
`.999999999` part of `time.RFC3339Nano`. -/
def fracChars : Nat → Nat → List Char
  | 0, _ => []
  | w + 1, ns => if ns % 10 = 0 then fracChars w (ns / 10) else padNat (w + 1) ns

/-- `time.Time.MarshalJSON` body: RFC3339 with nanoseconds (trailing zeros
trimmed, fraction omitted when zero); the zone is modelled as UTC. -/
def rfc3339Chars (t : GoTime) : List Char :=
  padNat 4 t.year ++ '-' :: padNat 2 t.month ++ '-' :: padNat 2 t.day ++
  'T' :: padNat 2 t.hour ++ ':' :: padNat 2 t.minute ++ ':' :: padNat 2 t.second ++
  (if t.nanosec = 0 then [] else '.' :: fracChars 9 t.nanosec) ++ ['Z']

def parse2 (c1 c2 : Char) : Option Nat :=
  match digitVal c1, digitVal c2 with
  | some a, some b => some (a * 10 + b)
  | _, _ => none

def parse4 (c1 c2 c3 c4 : Char) : Option Nat :=
  match digitVal c1, digitVal c2, digitVal c3, digitVal c4 with
  | some a, some b, some c, some d => some (a * 1000 + b * 100 + c * 10 + d)
  | _, _, _, _ => none

/-- `time.Time.UnmarshalJSON` body: parse the RFC3339Nano text back. -/
def timeFromRFC3339 (s : String) : Option GoTime :=
  match s.data with
  | y1 :: y2 :: y3 :: y4 :: '-' :: m1 :: m2 :: '-' :: d1 :: d2 :: 'T' ::
      h1 :: h2 :: ':' :: n1 :: n2 :: ':' :: s1 :: s2 :: rest =>
    match parse4 y1 y2 y3 y4, parse2 m1 m2, parse2 d1 d2, parse2 h1 h2,
        parse2 n1 n2, parse2 s1 s2 with
    | some y, some mo, some d, some h, some mi, some sec =>
      if rest = ['Z'] then some ⟨y, mo, d, h, mi, sec, 0⟩
      else
        match rest with
        | '.' :: more =>
          let digs := more.takeWhile isDigitChar
          if digs.length = 0 then none
          else if 9 < digs.length then none
          else if more.drop digs.length ≠ ['Z'] then none
          else
            match parseDigits digs with
            | some v => some ⟨y, mo, d, h, mi, sec, v * 10 ^ (9 - digs.length)⟩
            | none => none
        | _ => none
    | _, _, _, _, _, _ => none
  | _ => none

/-- `json.Marshal` of a `models.Wallet`: struct fields in declaration
order. -/
def Wallet.ToJSON (w : Wallet) : Json :=
  .jobj [(("wallet_id"), .jstr w.WalletID), (("balance"), .jnum w.Balance)]

/-- One field of `json.Unmarshal` into a `*models.Wallet`: a present tag
overwrites the field (later duplicates win), `null` leaves it untouched,
unknown tags are ignored, a type mismatch is an error. -/
def applyWalletField (w : Wallet) (kv : String × Json) : Option Wallet :=
  if kv.1 = ("wallet_id") then
    match kv.2 with
    | .jstr v => some { w with WalletID := v }
    | .jnull => some w
    | _ => none
  else if kv.1 = ("balance") then
    match kv.2 with
    | .jnum q => some { w with Balance := q }
    | .jnull => some w
    | _ => none
  else some w

/-- `wallet.FromJSON`: `json.Unmarshal` into the pointed-at struct. -/
def Wallet.FromJSON (j : Json) (init : Wallet) : Option Wallet :=
  match j with
  | .jobj fields => fields.foldlM applyWalletField init
  | .jnull => some init
  | _ => none

/-- `json.Marshal` of a `models.Transaction`: struct fields in declaration
order, `additional_data` omitted when empty (`omitempty`). -/
def Transaction.ToJSON (t : Transaction) : Json :=
  .jobj ([(("id"), .jstr t.ID), (("wallet_id"), .jstr t.WalletID),
      (("amount"), .jnum t.Amount), (("description"), .jstr t.Description)] ++
    (if t.AdditionalData = [] then []
     else [(("additional_data"), .jobj t.AdditionalData)]) ++
    [(("timestamp"), .jstr ⟨rfc3339Chars t.Timestamp⟩)])

/-- One field of `json.Unmarshal` into a `*models.Transaction`. -/
def applyTransactionField (t : Transaction) (kv : String × Json) :
    Option Transaction :=
  if kv.1 = ("id") then
    match kv.2 with
    | .jstr v => some { t with ID := v }
    | .jnull => some t
    | _ => none
  else if kv.1 = ("wallet_id") then
    match kv.2 with
    | .jstr v => some { t with WalletID := v }
    | .jnull => some t
    | _ => none
  else if kv.1 = ("amount") then
    match kv.2 with
    | .jnum q => some { t with Amount := q }
    | .jnull => some t
    | _ => none
  else if kv.1 = ("description") then
    match kv.2 with
    | .jstr v => some { t with Description := v }
    | .jnull => some t
    | _ => none
  else if kv.1 = ("additional_data") then
    match kv.2 with
    | .jobj m => some { t with AdditionalData := m }
    | .jnull => some t
    | _ => none
  else if kv.1 = ("timestamp") then
    match kv.2 with
    | .jstr v =>
      match timeFromRFC3339 v with
      | some tm => some { t with Timestamp := tm }
      | none => none
    | .jnull => some t
    | _ => none
  else some t

/-- `tx.FromJSON`: `json.Unmarshal` into the pointed-at struct. -/
def Transaction.FromJSON (j : Json) (init : Transaction) : Option Transaction :=
  match j with
  | .jobj fields => fields.foldlM applyTransactionField init
  | .jnull => some init
  | _ => none

/-- The record stored under `wid`'s wallet key (if any) is a wallet document
whose `WalletID` is `wid` itself. Every store the engine reaches from an
empty one on `':'`-free wallet ids satisfies this. -/
def WalletRecordWF (s : Store) (wid : String) : Prop :=
  ∀ v, storeGet s (walletKeyS wid) = some v →
    ∃ w : Wallet, v = .wv w ∧ w.WalletID = wid


/-- The sum of the amounts of the committed transactions the store holds
for `walletID` (the wallet-scoped records the scan enumerates). -/
def txSum (s : Store) (walletID : String) : ℚ :=
  ((storeScan s walletID).map (fun t => t.Amount)).sum

/-- The three writes a successful `AddCurrency`/`RemoveCurrency` commits:
the wallet record, the primary transaction record and the wallet-scoped
transaction record. -/
def commitStore (s : Store) (w0 id : String) (wrec : Wallet)
    (tx : Transaction) : Store :=
  storeSet (storeSet (storeSet s (walletKeyS w0) (.wv wrec))
    (txKeyS id) (.tv tx)) (txWalletKeyS w0 id) (.tv tx)

/-- A credit of 5 and a debit of 2 on wallet `"alice"`, committed at two
distinct valid instants. -/
def c1DemoOps : List Op :=
  [Op.add ("alice") 5 ("d") [] ⟨2024, 1, 1, 0, 0, 0, 0⟩,
   Op.remove ("alice") 2 ("") [] ⟨2024, 1, 1, 0, 0, 0, 1⟩]

/-- A wallet id crafted to collide with a wallet-scoped transaction key:
`"w:transaction:" ++ generateID ⟨2024,1,2,3,4,5,6⟩`. -/
def c1Victim : String := ("w:transaction:20240102030405.000000006")

/-- Credit the crafted wallet, then credit wallet `"w"` at the instant
whose generated id completes the collision. -/
def c1BadOps : List Op :=
  [Op.add c1Victim 5 ("") [] ⟨2024, 1, 1, 0, 0, 0, 0⟩,
   Op.add ("w") 3 ("") [] ⟨2024, 1, 2, 3, 4, 5, 6⟩]

def c4tx (id : String) (amt : ℚ) : Transaction :=
  ⟨id, ("w"), amt, (""), [], zeroGoTime⟩

/-- A scan result of thirteen transactions (ids in scan order) with two
equal amounts at scan positions 3 and 9 (1-based). -/
def c4Scan : List Transaction :=
  [c4tx ("01") 2, c4tx ("02") 10, c4tx ("03") 9, c4tx ("04") 6,
   c4tx ("05") 11, c4tx ("06") 3, c4tx ("07") 4, c4tx ("08") 8,
   c4tx ("09") 9, c4tx ("10") 5, c4tx ("11") 1, c4tx ("12") 12,
   c4tx ("13") 7]


/-!
## Helper lemmas
-/

theorem strData_inj {s t : String} (h : s.data = t.data) : s = t := by
  cases s
  cases t
  exact congrArg String.mk h

theorem walletKeyS_eq (wid : String) :
    walletKeyS wid = ("wallet:").data ++ wid.data := by
  simp [walletKeyS, String.data_append]

theorem txKeyS_eq (id : String) :
    txKeyS id = ("transaction:").data ++ id.data := by
  simp [txKeyS, String.data_append]

theorem txWalletKeyS_eq (wid id : String) :
    txWalletKeyS wid id =
      ("wallet:").data ++
        (wid.data ++ ':' :: (("transaction").data ++ ':' :: id.data)) := by
  simp [txWalletKeyS, String.data_append]

theorem scanKeyS_eq (wid : String) :
    scanKeyS wid =
      ("wallet:").data ++ (wid.data ++ ':' :: (("transaction").data ++ [':'])) := by
  simp [scanKeyS, String.data_append]

/-- Splitting at the first `':'`: a colon-free head before a `':'` is
uniquely determined. -/
theorem colon_split :
    ∀ (u v : List Char), ':' ∉ u → ':' ∉ v →
      ∀ a b : List Char, u ++ ':' :: a = v ++ ':' :: b → u = v ∧ a = b := by
  intro u
  induction u with
  | nil =>
    intro v _ hv a b h
    cases v with
    | nil => simpa using h
    | cons c v' =>
      simp only [List.nil_append, List.cons_append, List.cons.injEq] at h
      exact absurd (by simp [← h.1] : ':' ∈ c :: v') hv
  | cons c u' ih =>
    intro v hu hv a b h
    cases v with
    | nil =>
      simp only [List.cons_append, List.nil_append, List.cons.injEq] at h
      exact absurd (by simp [h.1] : ':' ∈ c :: u') hu
    | cons d v' =>
      simp only [List.cons_append, List.cons.injEq] at h
      have hu' : ':' ∉ u' := fun hm => hu (List.mem_cons_of_mem _ hm)
      have hv' : ':' ∉ v' := fun hm => hv (List.mem_cons_of_mem _ hm)
      obtain ⟨he, ha⟩ := ih v' hu' hv' a b h.2
      exact ⟨by rw [h.1, he], ha⟩

/-- Prefix version of `colon_split`. -/
theorem colon_split_pre :
    ∀ (u v : List Char), ':' ∉ u → ':' ∉ v →
      ∀ a b : List Char, (u ++ ':' :: a) <+: (v ++ ':' :: b) → u = v ∧ a <+: b := by
  intro u
  induction u with
  | nil =>
    intro v _ hv a b h
    cases v with
    | nil => simpa [List.cons_prefix_cons] using h
    | cons c v' =>
      simp only [List.nil_append, List.cons_append, List.cons_prefix_cons] at h
      exact absurd (by simp [← h.1] : ':' ∈ c :: v') hv
  | cons c u' ih =>
    intro v hu hv a b h
    cases v with
    | nil =>
      simp only [List.cons_append, List.nil_append, List.cons_prefix_cons] at h
      exact absurd (by simp [h.1] : ':' ∈ c :: u') hu
    | cons d v' =>
      simp only [List.cons_append, List.cons_prefix_cons] at h
      have hu' : ':' ∉ u' := fun hm => hu (List.mem_cons_of_mem _ hm)
      have hv' : ':' ∉ v' := fun hm => hv (List.mem_cons_of_mem _ hm)
      obtain ⟨he, ha⟩ := ih v' hu' hv' a b h.2
      exact ⟨by rw [h.1, he], ha⟩

theorem firstSeven {p q x y : List Char} (h : p ++ x = q ++ y)
    (hp : 7 ≤ p.length) (hq : 7 ≤ q.length) : p.take 7 = q.take 7 := by
  have h2 := congrArg (fun l => List.take 7 l) h
  simpa [List.take_append_of_le_length, hp, hq] using h2

/-- A wallet key and a transaction primary key never coincide. -/
theorem wkey_ne_txkey (a b : String) : walletKeyS a ≠ txKeyS b := by
  intro h
  rw [walletKeyS_eq, txKeyS_eq] at h
  exact absurd (firstSeven h (by decide) (by decide)) (by decide)

/-- A wallet's key never coincides with one of its own wallet-scoped
transaction keys (the latter is strictly longer). -/
theorem wkey_ne_txwkey_self (wid id : String) :
    walletKeyS wid ≠ txWalletKeyS wid id := by
  intro h
  rw [walletKeyS_eq, txWalletKeyS_eq] at h
  have h3 := List.append_cancel_left h
  have h4 := congrArg List.length h3
  simp at h4

theorem storeGet_set_self (s : Store) (k : List Char) (v : Val) :
    storeGet (storeSet s k v) k = some v := by
  induction s with
  | nil => simp [storeSet, storeGet]
  | cons e s ih =>
    by_cases h : e.1 = k
    · simp [storeSet, storeGet, h]
    · simp [storeSet, storeGet, h, ih]

theorem storeGet_set_other (s : Store) (k k' : List Char) (v : Val)
    (h : k' ≠ k) : storeGet (storeSet s k v) k' = storeGet s k' := by
  induction s with
  | nil => simp [storeSet, storeGet, Ne.symm h]
  | cons e s ih =>
    obtain ⟨ek, ev⟩ := e
    by_cases he : ek = k
    · have hek : ek ≠ k' := by rw [he]; exact Ne.symm h
      simp [storeSet, storeGet, he, hek, Ne.symm h]
    · simp only [storeSet, he, if_neg he]
      by_cases he' : ek = k'
      · simp [storeGet, he']
      · simp [storeGet, he', ih]

/-!
## Claims
-/

/-- C10: with `':'`-free wallet ids the three key derivations are injective
with pairwise disjoint ranges, and a derived key starts with the scan range
`"wallet:" + w + ":transaction:"` exactly when it is a wallet-scoped
transaction key of wallet `w`; without the restriction, keys of different
records collide (a wallet id containing `":transaction:"` reaches another
wallet's transaction key). -/
theorem c10_key_schema :
    (∀ a b : String, walletKeyS a = walletKeyS b → a = b) ∧
    (∀ a b : String, txKeyS a = txKeyS b → a = b) ∧
    (∀ w1 i1 w2 i2 : String, ColonFree w1 → ColonFree w2 →
      txWalletKeyS w1 i1 = txWalletKeyS w2 i2 → w1 = w2 ∧ i1 = i2) ∧
    (∀ a w i : String, ColonFree a → walletKeyS a ≠ txWalletKeyS w i) ∧
    (∀ a b : String, walletKeyS a ≠ txKeyS b) ∧
    (∀ a w i : String, txKeyS a ≠ txWalletKeyS w i) ∧
    (∀ w i : String, scanKeyS w <+: txWalletKeyS w i) ∧
    (∀ w u : String, ColonFree w → ColonFree u → ¬ scanKeyS w <+: walletKeyS u) ∧
    (∀ w i : String, ¬ scanKeyS w <+: txKeyS i) ∧
    (∀ w u i : String, ColonFree w → ColonFree u →
      scanKeyS w <+: txWalletKeyS u i → u = w) ∧
    walletKeyS ("w:transaction:1") = txWalletKeyS ("w") ("1") := by
  refine ⟨?_, ?_, ?_, ?_, fun a b => wkey_ne_txkey a b, ?_, ?_, ?_, ?_, ?_, ?_⟩
  · intro a b h
    rw [walletKeyS_eq, walletKeyS_eq] at h
    exact strData_inj (List.append_cancel_left h)
  · intro a b h
    rw [txKeyS_eq, txKeyS_eq] at h
    exact strData_inj (List.append_cancel_left h)
  · intro w1 i1 w2 i2 h1 h2 h
    rw [txWalletKeyS_eq, txWalletKeyS_eq] at h
    have h3 := List.append_cancel_left h
    obtain ⟨hw, hrest⟩ := colon_split w1.data w2.data h1 h2 _ _ h3
    have hi := List.append_cancel_left hrest
    exact ⟨strData_inj hw, strData_inj (by simpa using hi)⟩
  · intro a w i ha h
    rw [walletKeyS_eq, txWalletKeyS_eq] at h
    have h3 := List.append_cancel_left h
    exact ha (show ':' ∈ a.data by rw [h3]; simp)
  · intro a w i h
    rw [txKeyS_eq, txWalletKeyS_eq] at h
    exact absurd (firstSeven h (by decide) (by decide)) (by decide)
  · intro w i
    rw [scanKeyS_eq, txWalletKeyS_eq]
    exact ⟨i.data, by simp⟩
  · intro w u hw hu h
    rw [scanKeyS_eq, walletKeyS_eq] at h
    have h3 := (List.prefix_append_right_inj _).mp h
    have hmem : ':' ∈ w.data ++ ':' :: (("transaction").data ++ [':']) := by simp
    exact hu (h3.subset hmem)
  · intro w i h
    rw [scanKeyS_eq, txKeyS_eq] at h
    obtain ⟨t, ht⟩ := h
    rw [List.append_assoc] at ht
    exact absurd (firstSeven ht (by decide) (by decide)) (by decide)
  · intro w u i hw hu h
    rw [scanKeyS_eq, txWalletKeyS_eq] at h
    have h3 := (List.prefix_append_right_inj _).mp h
    obtain ⟨he, _⟩ := colon_split_pre w.data u.data hw hu _ _ h3
    exact (strData_inj he).symm
  · decide

theorem c10_key_schema_witness :
    ColonFree ("alice") ∧ walletKeyS ("alice") ≠ txWalletKeyS ("w") ("1") :=
  ⟨by decide, c10_key_schema.2.2.2.1 ("alice") ("w") ("1") (by decide)⟩


/-- C2: a failed `AddCurrency`/`RemoveCurrency` leaves the wallet balance,
the paginated transaction view, and every stored record (primary and
wallet-scoped) exactly as before the call — the badger `Update` rolls back,
so the caller's store is unchanged. -/
theorem c2_error_no_partial_write :
    ∀ (s : Store) (wid : String) (amt : ℚ) (d : String)
      (ad : List (String × Json)) (now : GoTime) (e : LedgerError)
      (w : String) (L O : Int) (sb so : String) (k : List Char),
    (AddCurrency s wid amt d ad now = .error e →
      applyOp s (.add wid amt d ad now) = (s, none) ∧
      GetWalletBalance (applyOp s (.add wid amt d ad now)).1 w =
        GetWalletBalance s w ∧
      GetTransactionsByWallet (applyOp s (.add wid amt d ad now)).1 w L O sb so =
        GetTransactionsByWallet s w L O sb so ∧
      storeGet (applyOp s (.add wid amt d ad now)).1 k = storeGet s k) ∧
    (RemoveCurrency s wid amt d ad now = .error e →
      applyOp s (.remove wid amt d ad now) = (s, none) ∧
      GetWalletBalance (applyOp s (.remove wid amt d ad now)).1 w =
        GetWalletBalance s w ∧
      GetTransactionsByWallet (applyOp s (.remove wid amt d ad now)).1 w L O sb so =
        GetTransactionsByWallet s w L O sb so ∧
      storeGet (applyOp s (.remove wid amt d ad now)).1 k = storeGet s k) := by
  intro s wid amt d ad now e w L O sb so k
  constructor
  · intro he
    have h1 : applyOp s (.add wid amt d ad now) = (s, none) := by
      simp [applyOp, he]
    exact ⟨h1, by rw [h1], by rw [h1], by rw [h1]⟩
  · intro he
    have h1 : applyOp s (.remove wid amt d ad now) = (s, none) := by
      simp [applyOp, he]
    exact ⟨h1, by rw [h1], by rw [h1], by rw [h1]⟩

theorem c2_error_no_partial_write_witness :
    RemoveCurrency [] ("w") 5 ("") [] ⟨2025, 1, 1, 0, 0, 0, 0⟩ =
      .error .insufficientFunds ∧
    applyOp [] (.remove ("w") 5 ("") [] ⟨2025, 1, 1, 0, 0, 0, 0⟩) = ([], none) := by
  have he : RemoveCurrency [] ("w") 5 ("") [] ⟨2025, 1, 1, 0, 0, 0, 0⟩ =
      .error .insufficientFunds := by rfl
  exact ⟨he,
    ((c2_error_no_partial_write [] ("w") 5 ("") [] ⟨2025, 1, 1, 0, 0, 0, 0⟩
      .insufficientFunds ("w") 0 0 ("") ("") []).2 he).1⟩

/-- C3: `AddCurrency`/`RemoveCurrency` fail with `InvalidAmount` exactly for
`amount <= 0`; for positive amounts `RemoveCurrency` fails with
`InsufficientFunds` exactly when the wallet record is absent (implicit
balance 0) or its balance is below the amount; on success the balance
decreases by the amount and the committed transaction's amount is its
negation. -/
theorem c3_amount_validation :
    ∀ (s : Store) (wid : String) (amt : ℚ) (d : String)
      (ad : List (String × Json)) (now : GoTime),
    (AddCurrency s wid amt d ad now = .error .invalidAmount ↔ amt ≤ 0) ∧
    (RemoveCurrency s wid amt d ad now = .error .invalidAmount ↔ amt ≤ 0) ∧
    (0 < amt →
      (RemoveCurrency s wid amt d ad now = .error .insufficientFunds ↔
        (storeGet s (walletKeyS wid) = none ∨ (GetWallet s wid).Balance < amt))) ∧
    (∀ s' t, WalletRecordWF s wid →
      RemoveCurrency s wid amt d ad now = .ok (s', t) →
      GetWalletBalance s' wid = GetWalletBalance s wid - amt ∧
      t.Amount = -amt) := by
  intro s wid amt d ad now
  refine ⟨?_, ?_, ?_, ?_⟩
  · unfold AddCurrency
    by_cases hh : amt ≤ 0 <;> simp [hh]
  · unfold RemoveCurrency
    by_cases hh : amt ≤ 0
    · simp [hh]
    · simp only [if_neg hh]
      cases hv : storeGet s (walletKeyS wid) with
      | none => simp [hh]
      | some v =>
        by_cases hb :
            (decodeWalletVal v { WalletID := wid, Balance := 0 }).Balance < amt <;>
          simp [hb, hh]
  · intro hpos
    have hh : ¬ amt ≤ 0 := not_le.mpr hpos
    unfold RemoveCurrency
    simp only [if_neg hh]
    cases hv : storeGet s (walletKeyS wid) with
    | none => simp
    | some v =>
      have hgw : GetWallet s wid =
          decodeWalletVal v { WalletID := wid, Balance := 0 } := by
        unfold GetWallet
        rw [hv]
      by_cases hb :
          (decodeWalletVal v { WalletID := wid, Balance := 0 }).Balance < amt <;>
        simp [hb, hgw, hv]
  · intro s' t hwf hok
    by_cases hh : amt ≤ 0
    · unfold RemoveCurrency at hok
      simp [hh] at hok
    · cases hv : storeGet s (walletKeyS wid) with
      | none =>
        unfold RemoveCurrency at hok
        rw [if_neg hh, hv] at hok
        simp at hok
      | some v =>
        obtain ⟨w, hw, hwid⟩ := hwf v hv
        subst hw
        by_cases hb : w.Balance < amt
        · unfold RemoveCurrency at hok
          rw [if_neg hh, hv] at hok
          simp [decodeWalletVal, hb] at hok
        · have hcomp : RemoveCurrency s wid amt d ad now =
              .ok (storeSet (storeSet
                    (storeSet s (walletKeyS w.WalletID)
                      (.wv { WalletID := w.WalletID, Balance := w.Balance - amt }))
                    (txKeyS (generateID now))
                    (.tv { ID := generateID now, WalletID := wid, Amount := -amt,
                           Description := d, AdditionalData := ad, Timestamp := now }))
                  (txWalletKeyS wid (generateID now))
                  (.tv { ID := generateID now, WalletID := wid, Amount := -amt,
                         Description := d, AdditionalData := ad, Timestamp := now }),
                { ID := generateID now, WalletID := wid, Amount := -amt,
                  Description := d, AdditionalData := ad, Timestamp := now }) := by
            unfold RemoveCurrency
            rw [if_neg hh, hv]
            simp only [decodeWalletVal]
            rw [if_neg hb]
            rfl
          rw [hcomp] at hok
          have hpair := Except.ok.inj hok
          have hs' := congrArg Prod.fst hpair
          have ht := congrArg Prod.snd hpair
          simp only at hs' ht
          constructor
          · rw [← hs']
            unfold GetWalletBalance GetWallet
            rw [storeGet_set_other _ _ _ _ (wkey_ne_txwkey_self wid (generateID now))]
            rw [storeGet_set_other _ _ _ _ (wkey_ne_txkey wid (generateID now))]
            rw [hwid, storeGet_set_self, hv]
            simp [decodeWalletVal]
          · rw [← ht]

theorem c3_amount_validation_witness :
    (0 < (4 : ℚ) ∧
      (RemoveCurrency [] ("w") 4 ("") [] ⟨2025, 1, 1, 0, 0, 0, 0⟩ =
          .error .insufficientFunds ↔
        (storeGet [] (walletKeyS ("w")) = none ∨
          (GetWallet [] ("w")).Balance < 4))) ∧
    (WalletRecordWF [(walletKeyS ("w"), Val.wv ⟨"w", 10⟩)] ("w") ∧
      GetWalletBalance
          (storeSet (storeSet
              (storeSet [(walletKeyS ("w"), Val.wv ⟨"w", 10⟩)] (walletKeyS ("w"))
                (.wv { WalletID := ("w"), Balance := 10 - 4 }))
              (txKeyS (generateID ⟨2025, 1, 1, 0, 0, 0, 0⟩))
              (.tv { ID := generateID ⟨2025, 1, 1, 0, 0, 0, 0⟩, WalletID := ("w"),
                     Amount := -4, Description := (""), AdditionalData := [],
                     Timestamp := ⟨2025, 1, 1, 0, 0, 0, 0⟩ }))
            (txWalletKeyS ("w") (generateID ⟨2025, 1, 1, 0, 0, 0, 0⟩))
            (.tv { ID := generateID ⟨2025, 1, 1, 0, 0, 0, 0⟩, WalletID := ("w"),
                   Amount := -4, Description := (""), AdditionalData := [],
                   Timestamp := ⟨2025, 1, 1, 0, 0, 0, 0⟩ })) ("w") =
        GetWalletBalance [(walletKeyS ("w"), Val.wv ⟨"w", 10⟩)] ("w") - 4) := by
  have hwf : WalletRecordWF [(walletKeyS ("w"), Val.wv ⟨"w", 10⟩)] ("w") := by
    intro v hv
    refine ⟨⟨"w", 10⟩, ?_, rfl⟩
    have h2 : some (Val.wv (⟨"w", 10⟩ : Wallet)) = some v := by
      simpa [storeGet] using hv
    exact (Option.some.inj h2).symm
  refine ⟨⟨by norm_num, (c3_amount_validation [] ("w") 4 ("") []
    ⟨2025, 1, 1, 0, 0, 0, 0⟩).2.2.1 (by norm_num)⟩, hwf, ?_⟩
  exact ((c3_amount_validation [(walletKeyS ("w"), Val.wv ⟨"w", 10⟩)] ("w") 4 ("")
    [] ⟨2025, 1, 1, 0, 0, 0, 0⟩).2.2.2 _ _ hwf (by rfl)).1

theorem envGet_set_other (m : Manager) (e1 e2 : String) (v : Store)
    (h : e2 ≠ e1) : envGet (envSet m e1 v) e2 = envGet m e2 := by
  induction m with
  | nil => simp [envSet, envGet, Ne.symm h]
  | cons e m ih =>
    obtain ⟨ek, ev⟩ := e
    by_cases he : ek = e1
    · have hek : ek ≠ e2 := by rw [he]; exact Ne.symm h
      simp [envSet, envGet, he, hek, Ne.symm h]
    · simp only [envSet, if_neg he]
      by_cases he' : ek = e2
      · simp [envGet, he']
      · simp [envGet, he', ih]

/-- After any operation routed to environment `env1`, the lookup for a
different environment `env2` is unchanged. -/
theorem envGet_runOpEnv_other (m : Manager) (env1 env2 : String) (op : Op)
    (h : env1 ≠ env2) :
    envGet (runOpEnv m env1 op) env2 = envGet m env2 := by
  unfold runOpEnv getDB
  cases hm : envGet m env1 with
  | some st => simpa using envGet_set_other m env1 env2 _ (Ne.symm h)
  | none =>
    simp only []
    rw [envGet_set_other _ env1 env2 _ (Ne.symm h),
      envGet_set_other _ env1 env2 _ (Ne.symm h)]

/-- C8: operations through the ledger engine of one environment never change
the balance or the transaction history observed through the engine of a
different environment — each environment name owns a separate store. -/
theorem c8_environment_isolation :
    ∀ (m : Manager) (env1 env2 : String) (op : Op) (w : String)
      (L O : Int) (sb so : String),
    env1 ≠ env2 →
    observeBalance (runOpEnv m env1 op) env2 w = observeBalance m env2 w ∧
    observeTransactions (runOpEnv m env1 op) env2 w L O sb so =
      observeTransactions m env2 w L O sb so := by
  intro m env1 env2 op w L O sb so h
  have hget : (getDB (runOpEnv m env1 op) env2).2 = (getDB m env2).2 := by
    unfold getDB
    rw [envGet_runOpEnv_other m env1 env2 op h]
    cases envGet m env2 <;> rfl
  unfold observeBalance observeTransactions
  rw [hget]
  exact ⟨rfl, rfl⟩

theorem c8_environment_isolation_witness :
    ("a" : String) ≠ ("b") ∧
    observeBalance
        (runOpEnv [] ("a") (.add ("W") 100 ("") [] ⟨2025, 1, 1, 0, 0, 0, 0⟩))
        ("b") ("W") =
      observeBalance [] ("b") ("W") :=
  ⟨by decide,
    (c8_environment_isolation [] ("a") ("b")
      (.add ("W") 100 ("") [] ⟨2025, 1, 1, 0, 0, 0, 0⟩) ("W") 0 0 ("") ("")
      (by decide)).1⟩

/-- C9 counterexample: the caller-supplied limit `0` satisfies `limit >= 0`
but is not passed through — the handler replaces it with 50
(`if err != nil || limit <= 0 { limit = 50 }`). -/
theorem c9_limit_zero_counterexample :
    atoi ("0") = some 0 ∧ (0 : Int) ≥ 0 ∧
    parseLimit (some ("0")) = 50 ∧ parseLimit (some ("0")) ≠ 0 := by
  refine ⟨rfl, le_refl 0, rfl, ?_⟩
  intro h
  simp [parseLimit, atoi, parseDigits, parseDigitsAux, digitVal] at h

/-- C9 (amended): a parseable limit is passed through only when strictly
positive — limit `<= 0` (including 0) or unparseable defaults to 50; a
parseable offset `>= 0` is passed through, negative or unparseable defaults
to 0; `sort_by` outside {timestamp, amount} defaults to timestamp;
`sort_order` outside {ASC, DESC} defaults to DESC. -/
theorem c9_param_defaulting :
    (∀ s n, atoi s = some n → 0 < n → parseLimit (some s) = n) ∧
    (∀ s n, atoi s = some n → n ≤ 0 → parseLimit (some s) = 50) ∧
    (∀ s, atoi s = none → parseLimit (some s) = 50) ∧
    parseLimit none = 50 ∧
    (∀ s n, atoi s = some n → 0 ≤ n → parseOffset (some s) = n) ∧
    (∀ s n, atoi s = some n → n < 0 → parseOffset (some s) = 0) ∧
    (∀ s, atoi s = none → parseOffset (some s) = 0) ∧
    parseOffset none = 0 ∧
    parseSortBy (some ("timestamp")) = ("timestamp") ∧
    parseSortBy (some ("amount")) = ("amount") ∧
    (∀ s, s ≠ ("timestamp") → s ≠ ("amount") → parseSortBy (some s) = ("timestamp")) ∧
    parseSortBy none = ("timestamp") ∧
    parseSortOrder (some ("ASC")) = ("ASC") ∧
    parseSortOrder (some ("DESC")) = ("DESC") ∧
    (∀ s, s ≠ ("ASC") → s ≠ ("DESC") → parseSortOrder (some s) = ("DESC")) ∧
    parseSortOrder none = ("DESC") := by
  refine ⟨?_, ?_, ?_, rfl, ?_, ?_, ?_, rfl, rfl, rfl, ?_, rfl, rfl, rfl, ?_, rfl⟩
  · intro s n ha hn
    simp [parseLimit, ha, not_le.mpr hn]
  · intro s n ha hn
    simp [parseLimit, ha, hn]
  · intro s ha
    simp [parseLimit, ha]
  · intro s n ha hn
    simp [parseOffset, ha, not_lt.mpr hn]
  · intro s n ha hn
    simp [parseOffset, ha, hn]
  · intro s ha
    simp [parseOffset, ha]
  · intro s h1 h2
    simp [parseSortBy, h1, h2]
  · intro s h1 h2
    simp [parseSortOrder, h1, h2]

theorem c9_param_defaulting_witness :
    atoi ("7") = some 7 ∧ (0 : Int) < 7 ∧ parseLimit (some ("7")) = 7 ∧
    atoi ("-3") = some (-3) ∧ parseOffset (some ("-3")) = 0 ∧
    ("balance" : String) ≠ ("timestamp") ∧
    parseSortBy (some ("balance")) = ("timestamp") :=
  ⟨rfl, by norm_num, c9_param_defaulting.1 ("7") 7 rfl (by norm_num),
    rfl, c9_param_defaulting.2.2.2.2.2.1 ("-3") (-3) rfl (by norm_num),
    by decide, c9_param_defaulting.2.2.2.2.2.2.2.2.2.2.1 ("balance")
      (by decide) (by decide)⟩

/-!
### Size preservation of the sort model (needed for the pagination claim)
-/

theorem aswap_size (arr : Array T) (i j : Nat) :
    (aswap arr i j).size = arr.size := by
  unfold aswap
  split <;> simp [Array.size_swap]

theorem insertFromRight_length (lt : T → T → Bool) (acc : List T) (x : T) :
    (insertFromRight lt acc x).length = acc.length + 1 := by
  induction acc with
  | nil => rfl
  | cons y ys ih =>
    unfold insertFromRight
    split <;> simp [ih]

theorem insSortList_length (lt : T → T → Bool) (l : List T) :
    (insSortList lt l).length = l.length := by
  unfold insSortList
  rw [List.length_reverse]
  suffices h : ∀ acc : List T,
      (l.foldl (fun a x => insertFromRight lt a x) acc).length =
        acc.length + l.length by
    simpa using h []
  induction l with
  | nil => simp
  | cons x xs ih =>
    intro acc
    simp only [List.foldl_cons]
    rw [ih (insertFromRight lt acc x), insertFromRight_length]
    simp only [List.length_cons]
    omega

theorem insertionSortRange_size (lt : T → T → Bool) (arr : Array T)
    (a b : Nat) : (insertionSortRange lt arr a b).size = arr.size := by
  unfold insertionSortRange
  split
  · rename_i h
    simp [insSortList_length, Array.length_toList]
    omega
  · rfl

theorem partMainLoop_size (lt : T → T → Bool) (dflt : T) (b : Nat) :
    ∀ (fuel : Nat) (arr : Array T) (a i j : Nat),
      (partMainLoop lt dflt b fuel arr a i j).1.size = arr.size := by
  intro fuel
  induction fuel with
  | zero => intro arr a i j; rfl
  | succ n ih =>
    intro arr a i j
    unfold partMainLoop
    dsimp only
    split
    · rfl
    · rw [ih, aswap_size]

theorem partitionGo_size (lt : T → T → Bool) (dflt : T) (arr : Array T)
    (a b pivot : Nat) : (partitionGo lt dflt arr a b pivot).1.size = arr.size := by
  unfold partitionGo
  dsimp only
  split
  · simp [aswap_size]
  · simp only [aswap_size, partMainLoop_size]

theorem partEqLoop_size (lt : T → T → Bool) (dflt : T) (b : Nat) :
    ∀ (fuel : Nat) (arr : Array T) (a i j : Nat),
      (partEqLoop lt dflt b fuel arr a i j).1.size = arr.size := by
  intro fuel
  induction fuel with
  | zero => intro arr a i j; rfl
  | succ n ih =>
    intro arr a i j
    unfold partEqLoop
    dsimp only
    split
    · rfl
    · rw [ih, aswap_size]

theorem partitionEqualGo_size (lt : T → T → Bool) (dflt : T) (arr : Array T)
    (a b pivot : Nat) :
    (partitionEqualGo lt dflt arr a b pivot).1.size = arr.size := by
  unfold partitionEqualGo
  rw [partEqLoop_size, aswap_size]

theorem reverseRangeGo_size :
    ∀ (fuel : Nat) (arr : Array T) (i j : Nat),
      (reverseRangeGo fuel arr i j).size = arr.size := by
  intro fuel
  induction fuel with
  | zero => intro arr i j; rfl
  | succ n ih =>
    intro arr i j
    unfold reverseRangeGo
    split
    · rw [ih, aswap_size]
    · rfl

theorem pinsShiftL_size (lt : T → T → Bool) (dflt : T) :
    ∀ (fuel : Nat) (arr : Array T) (j : Nat),
      (pinsShiftL lt dflt fuel arr j).size = arr.size := by
  intro fuel
  induction fuel with
  | zero => intro arr j; rfl
  | succ n ih =>
    intro arr j
    unfold pinsShiftL
    split
    · rw [ih, aswap_size]
    · rfl

theorem pinsShiftR_size (lt : T → T → Bool) (dflt : T) (b : Nat) :
    ∀ (fuel : Nat) (arr : Array T) (j : Nat),
      (pinsShiftR lt dflt b fuel arr j).size = arr.size := by
  intro fuel
  induction fuel with
  | zero => intro arr j; rfl
  | succ n ih =>
    intro arr j
    unfold pinsShiftR
    split
    · rw [ih, aswap_size]
    · rfl

theorem pinsSteps_size (lt : T → T → Bool) (dflt : T) :
    ∀ (step : Nat) (arr : Array T) (a b i : Nat),
      (pinsSteps lt dflt step arr a b i).1.size = arr.size := by
  intro step
  induction step with
  | zero => intro arr a b i; rfl
  | succ n ih =>
    intro arr a b i
    unfold pinsSteps
    dsimp only
    split
    · rfl
    · split
      · rfl
      · rw [ih]
        split <;> split <;>
          simp [pinsShiftL_size, pinsShiftR_size, aswap_size]

theorem partialInsertionSortGo_size (lt : T → T → Bool) (dflt : T)
    (arr : Array T) (a b : Nat) :
    (partialInsertionSortGo lt dflt arr a b).1.size = arr.size := by
  unfold partialInsertionSortGo
  rw [pinsSteps_size]

theorem siftDownGo_size (lt : T → T → Bool) (dflt : T) :
    ∀ (fuel : Nat) (arr : Array T) (root hi first : Nat),
      (siftDownGo lt dflt fuel arr root hi first).size = arr.size := by
  intro fuel
  induction fuel with
  | zero => intro arr root hi first; rfl
  | succ n ih =>
    intro arr root hi first
    unfold siftDownGo
    dsimp only
    split
    · rfl
    · split <;> split <;> first
        | rfl
        | rw [ih, aswap_size]

theorem foldl_size_preserved {f : Array T → Nat → Array T}
    (hf : ∀ arr i, (f arr i).size = arr.size) :
    ∀ (l : List Nat) (arr : Array T), (l.foldl f arr).size = arr.size := by
  intro l
  induction l with
  | nil => intro arr; rfl
  | cons x xs ih =>
    intro arr
    simp only [List.foldl_cons]
    rw [ih, hf]

theorem heapSortGo_size (lt : T → T → Bool) (dflt : T) (arr : Array T)
    (a b : Nat) : (heapSortGo lt dflt arr a b).size = arr.size := by
  unfold heapSortGo
  dsimp only
  rw [foldl_size_preserved (fun arr2 i => by rw [siftDownGo_size, aswap_size])]
  rw [foldl_size_preserved (fun arr2 i => by rw [siftDownGo_size])]

theorem breakPatternsGo_size (arr : Array T) (a b : Nat) :
    (breakPatternsGo arr a b).size = arr.size := by
  unfold breakPatternsGo
  dsimp only
  split
  · simp [aswap_size]
  · rfl

theorem pdqsortGo_size (lt : T → T → Bool) (dflt : T) :
    ∀ (fuel : Nat) (arr : Array T) (a b limit : Nat) (wb wp : Bool),
      (pdqsortGo lt dflt fuel arr a b limit wb wp).size = arr.size := by
  intro fuel
  induction fuel with
  | zero => intro arr a b limit wb wp; rfl
  | succ n ih =>
    intro arr a b limit wb wp
    unfold pdqsortGo
    dsimp only
    simp only [apply_ite (@Prod.fst (Array T) Bool), apply_ite (@Array.size T),
      ih, insertionSortRange_size, heapSortGo_size, partitionEqualGo_size,
      partitionGo_size, partialInsertionSortGo_size, reverseRangeGo_size,
      breakPatternsGo_size, aswap_size, ite_self]

theorem goSortSlice_length (lt : T → T → Bool) (dflt : T) (l : List T) :
    (goSortSlice lt dflt l).length = l.length := by
  unfold goSortSlice
  rw [Array.length_toList, pdqsortGo_size, Array.size_toArray]

theorem sortTransactions_length (l : List Transaction) (sb so : String) :
    (sortTransactions l sb so).length = l.length := by
  unfold sortTransactions
  split
  · split
    · rw [goSortSlice_length]
    · split
      · rw [goSortSlice_length]
      · rfl
  · split
    · split
      · rw [goSortSlice_length]
      · split
        · rw [goSortSlice_length]
        · rfl
    · rfl

theorem paginate_spec (l : List Transaction) (L O : Int)
    (hL : 0 ≤ L) (hO : 0 ≤ O) :
    ((paginate l L O).length : Int) ≤ L ∧
    ((l.length : Int) - O < L →
      ((paginate l L O).length : Int) = max 0 ((l.length : Int) - O)) ∧
    ((l.length : Int) ≤ O → paginate l L O = []) := by
  unfold paginate
  dsimp only
  by_cases h1 : O > (l.length : Int)
  · simp only [if_pos h1]
    refine ⟨by simpa using hL, fun h => ?_, fun h => by simp⟩
    simp only [List.length_nil, Int.natCast_zero]
    omega
  · simp only [if_neg h1]
    by_cases h2 : O + L > (l.length : Int)
    · simp only [if_pos h2]
      have hlen : (((l.drop O.toNat).take ((l.length : Int) - O).toNat).length : Int) =
          (l.length : Int) - O := by
        simp only [List.length_take, List.length_drop]
        omega
      refine ⟨by omega, fun h => by omega, fun h => ?_⟩
      have hz : ((l.length : Int) - O).toNat = 0 := by omega
      rw [hz]
      simp
    · simp only [if_neg h2]
      have hlen : (((l.drop O.toNat).take (O + L - O).toNat).length : Int) = L := by
        simp only [List.length_take, List.length_drop]
        omega
      refine ⟨by omega, fun h => by omega, fun h => ?_⟩
      have hz : (O + L - O).toNat = 0 := by omega
      rw [hz]
      simp

theorem wrap64_eq (n : Int) (h1 : -(2 ^ 63) ≤ n) (h2 : n < 2 ^ 63) :
    wrap64 n = n := by
  unfold wrap64
  omega

/-- When `offset + limit` stays within int64 nothing wraps and the slice
bounds are in order, so the Go pagination returns the clean window. -/
theorem paginateGo_eq_paginate (l : List Transaction) (L O : Int)
    (hL : 0 ≤ L) (hO : 0 ≤ O) (hov : O + L < 2 ^ 63) :
    paginateGo l L O = some (paginate l L O) := by
  unfold paginateGo paginate
  dsimp only
  rw [wrap64_eq (O + L) (by omega) hov]
  by_cases h1 : O > (l.length : Int)
  · rw [if_pos h1, if_pos h1]
  · rw [if_neg h1, if_neg h1]
    by_cases h2 : O + L > (l.length : Int)
    · rw [if_pos h2, if_pos ⟨hO, by omega⟩]
    · rw [if_neg h2, if_pos ⟨hO, by omega⟩]

/-- C6 (counterexample): the claim's window guarantee does not hold for
every `limit ≥ 0` and `offset ≥ 0`. On a wallet with one stored
transaction, `offset = 1` and `limit = 2^63 - 1` make
`end := offset + limit` wrap to `-2^63`; the early return does not fire
(`start ≤ len`), the clamp does not fire (`end < len`), and
`transactions[1:-2^63]` panics instead of returning the promised empty
sequence. -/
theorem c6_overflow_panics :
    ((storeScan c6Store ("w")).length : Int) = 1 ∧
    GetTransactionsByWalletGo c6Store ("w") (2 ^ 63 - 1) 1
      ("timestamp") ("ASC") = none := by
  constructor
  · decide
  · decide

/-- C6 (amended): for every `limit ≥ 0` and `offset ≥ 0` with
`offset + limit < 2^63` (no int64 overflow in `end := offset + limit`),
`GetTransactionsByWallet` does not panic and returns at most `limit`
elements, exactly `max 0 (totalCount - offset)` when
`totalCount - offset < limit`, and the empty list (not an error) when
`offset ≥ totalCount`, where `totalCount` is the number of stored
transactions scanned for the wallet. -/
theorem c6_pagination :
    ∀ (s : Store) (w : String) (L O : Int) (sb so : String),
      0 ≤ L → 0 ≤ O → O + L < 2 ^ 63 →
      ∃ page : List Transaction,
        GetTransactionsByWalletGo s w L O sb so = some page ∧
        (page.length : Int) ≤ L ∧
        (((storeScan s w).length : Int) - O < L →
          (page.length : Int) = max 0 (((storeScan s w).length : Int) - O)) ∧
        (((storeScan s w).length : Int) ≤ O → page = []) := by
  intro s w L O sb so hL hO hov
  have h := paginate_spec (sortTransactions (storeScan s w) sb so) L O hL hO
  rw [sortTransactions_length] at h
  refine ⟨paginate (sortTransactions (storeScan s w) sb so) L O, ?_, h⟩
  unfold GetTransactionsByWalletGo
  exact paginateGo_eq_paginate _ L O hL hO hov

theorem c6_pagination_witness :
    (0 : Int) ≤ 5 ∧ (0 : Int) ≤ 2 ∧ (2 + 5 : Int) < 2 ^ 63 ∧
    ∃ page : List Transaction,
      GetTransactionsByWalletGo [] ("w") 5 2 ("timestamp") ("DESC") =
        some page ∧
      (page.length : Int) ≤ 5 ∧
      (((storeScan [] ("w")).length : Int) - 2 < 5 →
        (page.length : Int) =
          max 0 (((storeScan [] ("w")).length : Int) - 2)) ∧
      (((storeScan [] ("w")).length : Int) ≤ 2 → page = []) :=
  ⟨by norm_num, by norm_num, by norm_num,
    c6_pagination [] ("w") 5 2 ("timestamp") ("DESC")
      (by norm_num) (by norm_num) (by norm_num)⟩

/-!
### Order lemmas for `insertOrdered` and `bytesLtb`
-/

theorem mem_insertOrdered (lt : T → T → Bool) (acc : List T) (x y : T) :
    y ∈ insertOrdered lt acc x ↔ y = x ∨ y ∈ acc := by
  induction acc with
  | nil => simp [insertOrdered]
  | cons z zs ih =>
    unfold insertOrdered
    split
    · simp [List.mem_cons]
    · simp only [List.mem_cons, ih]
      tauto

theorem insertOrdered_perm (lt : T → T → Bool) (acc : List T) (x : T) :
    List.Perm (insertOrdered lt acc x) (x :: acc) := by
  induction acc with
  | nil => rfl
  | cons z zs ih =>
    unfold insertOrdered
    split
    · rfl
    · exact (List.Perm.cons z ih).trans (List.Perm.swap x z zs)

theorem foldl_insertOrdered_perm (lt : T → T → Bool) :
    ∀ (l acc : List T),
      List.Perm (l.foldl (fun a x => insertOrdered lt a x) acc) (acc ++ l) := by
  intro l
  induction l with
  | nil => intro acc; simp
  | cons x xs ih =>
    intro acc
    simp only [List.foldl_cons]
    refine (ih (insertOrdered lt acc x)).trans ?_
    have h1 : List.Perm (insertOrdered lt acc x ++ xs) ((x :: acc) ++ xs) :=
      (insertOrdered_perm lt acc x).append_right xs
    exact h1.trans List.perm_middle.symm

theorem specStableSort_perm (lt : T → T → Bool) (l : List T) :
    List.Perm (specStableSort lt l) l := by
  simpa [specStableSort] using foldl_insertOrdered_perm lt l []

/-- Inserting keeps the list sorted (`Pairwise (fun a b => lt b a = false)`),
given transitivity and asymmetry of `lt`. -/
theorem insertOrdered_pairwise (lt : T → T → Bool)
    (htrans : ∀ a b c, lt a b = true → lt b c = true → lt a c = true)
    (hasym : ∀ a b, lt a b = true → lt b a = false) :
    ∀ (acc : List T) (x : T),
      acc.Pairwise (fun a b => lt b a = false) →
      (insertOrdered lt acc x).Pairwise (fun a b => lt b a = false) := by
  intro acc
  induction acc with
  | nil =>
    intro x _
    simp [insertOrdered]
  | cons y ys ih =>
    intro x hp
    rw [List.pairwise_cons] at hp
    unfold insertOrdered
    split
    · rename_i hlt
      refine List.Pairwise.cons ?_ (List.Pairwise.cons hp.1 hp.2)
      intro e he
      rcases List.mem_cons.mp he with rfl | he2
      · exact hasym x e hlt
      · cases hexe : lt e x with
        | false => rfl
        | true => exact absurd (htrans e x y hexe hlt) (by rw [hp.1 e he2]; simp)
    · rename_i hnlt
      refine List.Pairwise.cons ?_ (ih x hp.2)
      intro e he
      rcases (mem_insertOrdered lt ys x e).mp he with rfl | he2
      · simpa using hnlt
      · exact hp.1 e he2

theorem specStableSort_pairwise (lt : T → T → Bool)
    (htrans : ∀ a b c, lt a b = true → lt b c = true → lt a c = true)
    (hasym : ∀ a b, lt a b = true → lt b a = false) (l : List T) :
    (specStableSort lt l).Pairwise (fun a b => lt b a = false) := by
  unfold specStableSort
  suffices h : ∀ acc : List T, acc.Pairwise (fun a b => lt b a = false) →
      (l.foldl (fun a x => insertOrdered lt a x) acc).Pairwise
        (fun a b => lt b a = false) by
    exact h [] (by simp)
  induction l with
  | nil => intro acc hacc; simpa using hacc
  | cons x xs ih =>
    intro acc hacc
    simp only [List.foldl_cons]
    exact ih _ (insertOrdered_pairwise lt htrans hasym acc x hacc)

theorem bytesLtb_trans :
    ∀ a b c : List Char, bytesLtb a b = true → bytesLtb b c = true →
      bytesLtb a c = true := by
  intro a
  induction a with
  | nil =>
    intro b c hab hbc
    cases b with
    | nil => cases hab
    | cons y ys =>
      cases c with
      | nil => cases hbc
      | cons z zs => rfl
  | cons x xs ih =>
    intro b c hab hbc
    cases b with
    | nil => cases hab
    | cons y ys =>
      cases c with
      | nil => cases hbc
      | cons z zs =>
        simp only [bytesLtb, Bool.or_eq_true, Bool.and_eq_true, beq_iff_eq,
          decide_eq_true_eq] at hab hbc ⊢
        rcases hab with h1 | ⟨h1, h1r⟩ <;> rcases hbc with h2 | ⟨h2, h2r⟩
        · exact Or.inl (lt_trans h1 h2)
        · exact Or.inl (h2 ▸ h1)
        · exact Or.inl (h1 ▸ h2)
        · exact Or.inr ⟨h1.trans h2, ih ys zs h1r h2r⟩

theorem bytesLtb_asym :
    ∀ a b : List Char, bytesLtb a b = true → bytesLtb b a = false := by
  intro a
  induction a with
  | nil =>
    intro b hab
    cases b with
    | nil => cases hab
    | cons y ys => rfl
  | cons x xs ih =>
    intro b hab
    cases b with
    | nil => cases hab
    | cons y ys =>
      simp only [bytesLtb, Bool.or_eq_true, Bool.and_eq_true, beq_iff_eq,
        decide_eq_true_eq] at hab
      rw [Bool.eq_false_iff]
      intro hba
      simp only [bytesLtb, Bool.or_eq_true, Bool.and_eq_true, beq_iff_eq,
        decide_eq_true_eq] at hba
      rcases hab with h1 | ⟨h1, h1r⟩ <;> rcases hba with h2 | ⟨h2, h2r⟩
      · exact absurd h2 (not_lt.mpr (le_of_lt h1))
      · exact absurd h1 (h2 ▸ lt_irrefl x)
      · exact absurd h2 (h1 ▸ lt_irrefl y)
      · exact absurd h2r (by simp [ih ys h1r])

theorem bytesLtb_irrefl : ∀ a : List Char, bytesLtb a a = false := by
  intro a
  induction a with
  | nil => rfl
  | cons x xs ih => simp [bytesLtb, ih]

theorem bytesLtb_ne {a b : List Char} (h : bytesLtb a b = true) : a ≠ b := by
  intro he
  rw [he, bytesLtb_irrefl] at h
  cases h

/-!
### Ordering of generated transaction ids (C7)
-/

theorem GoTime.ltb_iff (a b : GoTime) :
    a.ltb b = true ↔
      (a.year < b.year ∨ (a.year = b.year ∧
        (a.month < b.month ∨ (a.month = b.month ∧
          (a.day < b.day ∨ (a.day = b.day ∧
            (a.hour < b.hour ∨ (a.hour = b.hour ∧
              (a.minute < b.minute ∨ (a.minute = b.minute ∧
                (a.second < b.second ∨ (a.second = b.second ∧
                  a.nanosec < b.nanosec)))))))))))) := by
  simp [GoTime.ltb, Bool.or_eq_true, Bool.and_eq_true, beq_iff_eq,
    decide_eq_true_eq]

theorem padNat_length : ∀ (w n : Nat), (padNat w n).length = w := by
  intro w
  induction w with
  | zero => intro n; rfl
  | succ k ih =>
    intro n
    unfold padNat
    simp [ih]

theorem dchar_lt {i j : Nat} (hi : i < 10) (hj : j < 10) (h : i < j) :
    dchar i < dchar j := by
  interval_cases i <;> interval_cases j <;> revert h <;> decide

theorem bytesLtb_append_eq (u : List Char) :
    ∀ a b, bytesLtb (u ++ a) (u ++ b) = bytesLtb a b := by
  induction u with
  | nil => intro a b; rfl
  | cons c cs ih =>
    intro a b
    simp [bytesLtb, ih, lt_irrefl c]

theorem bytesLtb_append_lt :
    ∀ (u v : List Char), u.length = v.length → bytesLtb u v = true →
      ∀ a b, bytesLtb (u ++ a) (v ++ b) = true := by
  intro u
  induction u with
  | nil =>
    intro v hlen h a b
    cases v with
    | nil => cases h
    | cons y ys => cases hlen
  | cons x xs ih =>
    intro v hlen h a b
    cases v with
    | nil => cases h
    | cons y ys =>
      simp only [bytesLtb, Bool.or_eq_true, Bool.and_eq_true, beq_iff_eq,
        decide_eq_true_eq] at h ⊢
      rcases h with h1 | ⟨h1, h1r⟩
      · exact Or.inl h1
      · exact Or.inr ⟨h1, ih ys (by simpa using hlen) h1r a b⟩

theorem padNat_lt :
    ∀ (w n m : Nat), n < m → m < 10 ^ w →
      bytesLtb (padNat w n) (padNat w m) = true := by
  intro w
  induction w with
  | zero =>
    intro n m h hb
    simp at hb
    omega
  | succ k ih =>
    intro n m h hb
    unfold padNat
    have hdiv : n / 10 ≤ m / 10 := Nat.div_le_div_right (le_of_lt h)
    rcases lt_or_eq_of_le hdiv with hd | hd
    · have hmb : m / 10 < 10 ^ k := by
        rw [Nat.div_lt_iff_lt_mul (by norm_num)]
        calc m < 10 ^ (k + 1) := hb
        _ = 10 ^ k * 10 := by ring
      exact bytesLtb_append_lt _ _ (by simp [padNat_length]) (ih _ _ hd hmb) _ _
    · rw [hd, bytesLtb_append_eq]
      have hmod : n % 10 < m % 10 := by omega
      have hlt := dchar_lt (Nat.mod_lt n (by norm_num))
        (Nat.mod_lt m (by norm_num)) hmod
      simp [bytesLtb, hlt]

/-- Chronological order of valid instants maps to byte order of the
generated ids. -/
theorem timeFormat_lt {t1 t2 : GoTime} (h1 : t1.Valid) (h2 : t2.Valid)
    (hlt : GoTime.ltb t1 t2 = true) :
    bytesLtb (timeFormatChars t1) (timeFormatChars t2) = true := by
  obtain ⟨hy1, hmo1, hd1, hh1, hmi1, hs1, hn1⟩ := h1
  obtain ⟨hy2, hmo2, hd2, hh2, hmi2, hs2, hn2⟩ := h2
  rw [GoTime.ltb_iff] at hlt
  unfold timeFormatChars
  simp only [List.append_assoc]
  rcases hlt with hc | ⟨he, hlt⟩
  · exact bytesLtb_append_lt _ _ (by simp [padNat_length])
      (padNat_lt 4 _ _ hc (lt_of_lt_of_le hy2 (by norm_num))) _ _
  rw [he, bytesLtb_append_eq]
  rcases hlt with hc | ⟨he, hlt⟩
  · exact bytesLtb_append_lt _ _ (by simp [padNat_length])
      (padNat_lt 2 _ _ hc (lt_of_lt_of_le hmo2 (by norm_num))) _ _
  rw [he, bytesLtb_append_eq]
  rcases hlt with hc | ⟨he, hlt⟩
  · exact bytesLtb_append_lt _ _ (by simp [padNat_length])
      (padNat_lt 2 _ _ hc (lt_of_lt_of_le hd2 (by norm_num))) _ _
  rw [he, bytesLtb_append_eq]
  rcases hlt with hc | ⟨he, hlt⟩
  · exact bytesLtb_append_lt _ _ (by simp [padNat_length])
      (padNat_lt 2 _ _ hc (lt_of_lt_of_le hh2 (by norm_num))) _ _
  rw [he, bytesLtb_append_eq]
  rcases hlt with hc | ⟨he, hlt⟩
  · exact bytesLtb_append_lt _ _ (by simp [padNat_length])
      (padNat_lt 2 _ _ hc (lt_of_lt_of_le hmi2 (by norm_num))) _ _
  rw [he, bytesLtb_append_eq]
  rcases hlt with hc | ⟨he, hlt⟩
  · exact bytesLtb_append_lt _ _ (by simp [padNat_length])
      (padNat_lt 2 _ _ hc (lt_of_lt_of_le hs2 (by norm_num))) _ _
  rw [he, bytesLtb_append_eq]
  have h9 : bytesLtb (padNat 9 t1.nanosec) (padNat 9 t2.nanosec) = true :=
    padNat_lt 9 _ _ hlt (lt_of_lt_of_le hn2 (by norm_num))
  simpa [bytesLtb] using h9

theorem txWalletKeyS_data2 (wid id : String) :
    txWalletKeyS wid id =
      ("wallet:" ++ wid ++ ":transaction:").data ++ id.data := by
  simp [txWalletKeyS, String.data_append]

/-- C7 (amended): ids generated at chronologically ordered valid instants
are distinct and byte-ordered like the instants, the wallet-scoped keys
inherit that order, and the per-wallet scan enumerates its entries in
ascending key order — so the forward scan is chronological. Two transactions
generated at the same instant, however, receive the same id (see the
counterexample), so distinctness holds only for distinct instants. -/
theorem c7_id_order :
    (∀ t1 t2 : GoTime, t1.Valid → t2.Valid → GoTime.ltb t1 t2 = true →
      generateID t1 ≠ generateID t2 ∧
      bytesLtb (generateID t1).data (generateID t2).data = true ∧
      ∀ w : String, bytesLtb (txWalletKeyS w (generateID t1))
        (txWalletKeyS w (generateID t2)) = true) ∧
    (∀ t1 t2 : GoTime, t1.Valid → t2.Valid → t1 ≠ t2 →
      generateID t1 ≠ generateID t2) ∧
    (∀ (s : Store) (w : String), (scanEntries s w).Pairwise
      (fun e1 e2 => bytesLtb e2.1 e1.1 = false)) := by
  have hfmt : ∀ t1 t2 : GoTime, t1.Valid → t2.Valid →
      GoTime.ltb t1 t2 = true →
      bytesLtb (generateID t1).data (generateID t2).data = true := by
    intro t1 t2 h1 h2 hlt
    exact timeFormat_lt h1 h2 hlt
  have hne : ∀ t1 t2 : GoTime, t1.Valid → t2.Valid →
      GoTime.ltb t1 t2 = true → generateID t1 ≠ generateID t2 := by
    intro t1 t2 h1 h2 hlt he
    exact bytesLtb_ne (hfmt t1 t2 h1 h2 hlt) (congrArg String.data he)
  refine ⟨?_, ?_, ?_⟩
  · intro t1 t2 h1 h2 hlt
    refine ⟨hne t1 t2 h1 h2 hlt, hfmt t1 t2 h1 h2 hlt, ?_⟩
    intro w
    rw [txWalletKeyS_data2, txWalletKeyS_data2, bytesLtb_append_eq]
    exact hfmt t1 t2 h1 h2 hlt
  · intro t1 t2 h1 h2 hne2
    have htot : GoTime.ltb t1 t2 = true ∨ GoTime.ltb t2 t1 = true := by
      cases hA : GoTime.ltb t1 t2 with
      | true => exact Or.inl rfl
      | false =>
        cases hB : GoTime.ltb t2 t1 with
        | true => exact Or.inr rfl
        | false =>
          exfalso
          apply hne2
          have na := (GoTime.ltb_iff t1 t2).not.mp (by simp [hA])
          have nb := (GoTime.ltb_iff t2 t1).not.mp (by simp [hB])
          obtain ⟨y1, mo1, d1, hh1, mi1, s1, n1⟩ := t1
          obtain ⟨y2, mo2, d2, hh2, mi2, s2, n2⟩ := t2
          simp only [GoTime.mk.injEq]
          simp only at na nb
          by_contra hcon
          rcases Nat.lt_trichotomy y1 y2 with h | h | h
          · exact na (Or.inl h)
          · rcases Nat.lt_trichotomy mo1 mo2 with h2 | h2 | h2
            · exact na (Or.inr ⟨h, Or.inl h2⟩)
            · rcases Nat.lt_trichotomy d1 d2 with h3 | h3 | h3
              · exact na (Or.inr ⟨h, Or.inr ⟨h2, Or.inl h3⟩⟩)
              · rcases Nat.lt_trichotomy hh1 hh2 with h4 | h4 | h4
                · exact na (Or.inr ⟨h, Or.inr ⟨h2, Or.inr ⟨h3, Or.inl h4⟩⟩⟩)
                · rcases Nat.lt_trichotomy mi1 mi2 with h5 | h5 | h5
                  · exact na (Or.inr ⟨h, Or.inr ⟨h2, Or.inr ⟨h3,
                      Or.inr ⟨h4, Or.inl h5⟩⟩⟩⟩)
                  · rcases Nat.lt_trichotomy s1 s2 with h6 | h6 | h6
                    · exact na (Or.inr ⟨h, Or.inr ⟨h2, Or.inr ⟨h3,
                        Or.inr ⟨h4, Or.inr ⟨h5, Or.inl h6⟩⟩⟩⟩⟩)
                    · rcases Nat.lt_trichotomy n1 n2 with h7 | h7 | h7
                      · exact na (Or.inr ⟨h, Or.inr ⟨h2, Or.inr ⟨h3,
                          Or.inr ⟨h4, Or.inr ⟨h5, Or.inr ⟨h6, h7⟩⟩⟩⟩⟩⟩)
                      · exact hcon ⟨h, h2, h3, h4, h5, h6, h7⟩
                      · exact nb (Or.inr ⟨h.symm, Or.inr ⟨h2.symm, Or.inr ⟨h3.symm,
                          Or.inr ⟨h4.symm, Or.inr ⟨h5.symm, Or.inr ⟨h6.symm, h7⟩⟩⟩⟩⟩⟩)
                    · exact nb (Or.inr ⟨h.symm, Or.inr ⟨h2.symm, Or.inr ⟨h3.symm,
                        Or.inr ⟨h4.symm, Or.inr ⟨h5.symm, Or.inl h6⟩⟩⟩⟩⟩)
                  · exact nb (Or.inr ⟨h.symm, Or.inr ⟨h2.symm, Or.inr ⟨h3.symm,
                      Or.inr ⟨h4.symm, Or.inl h5⟩⟩⟩⟩)
                · exact nb (Or.inr ⟨h.symm, Or.inr ⟨h2.symm, Or.inr ⟨h3.symm,
                    Or.inl h4⟩⟩⟩)
              · exact nb (Or.inr ⟨h.symm, Or.inr ⟨h2.symm, Or.inl h3⟩⟩)
            · exact nb (Or.inr ⟨h.symm, Or.inl h2⟩)
          · exact nb (Or.inl h)
    rcases htot with h | h
    · exact hne t1 t2 h1 h2 h
    · exact fun he => hne t2 t1 h2 h1 h he.symm
  · intro s w
    have heq : scanEntries s w = specStableSort entryKeyLt (scanFilter s w) := rfl
    rw [heq]
    have hp := specStableSort_pairwise entryKeyLt
      (fun a b c hab hbc => bytesLtb_trans a.1 b.1 c.1 hab hbc)
      (fun a b hab => bytesLtb_asym a.1 b.1 hab) (scanFilter s w)
    exact hp

/-- C7 counterexample: two distinct transactions committed at the same
instant receive equal ids from `generateID` (the second then overwrites the
first's primary record), refuting "for every pair of distinct committed
transactions, the ids produced by generateID are distinct". -/
theorem c7_same_instant_ids_collide :
    (applyOp [] (.add ("alice") 5 ("first") [] ⟨2025, 10, 11, 12, 0, 0, 0⟩)).2 =
      some { ID := ("20251011120000.000000000"), WalletID := ("alice"),
             Amount := 5, Description := ("first"), AdditionalData := [],
             Timestamp := ⟨2025, 10, 11, 12, 0, 0, 0⟩ } ∧
    (applyOp (applyOp [] (.add ("alice") 5 ("first") []
        ⟨2025, 10, 11, 12, 0, 0, 0⟩)).1
      (.add ("bob") 7 ("second") [] ⟨2025, 10, 11, 12, 0, 0, 0⟩)).2 =
      some { ID := ("20251011120000.000000000"), WalletID := ("bob"),
             Amount := 7, Description := ("second"), AdditionalData := [],
             Timestamp := ⟨2025, 10, 11, 12, 0, 0, 0⟩ } ∧
    ({ ID := ("20251011120000.000000000"), WalletID := ("alice"), Amount := 5,
       Description := ("first"), AdditionalData := [],
       Timestamp := ⟨2025, 10, 11, 12, 0, 0, 0⟩ } : Transaction) ≠
      { ID := ("20251011120000.000000000"), WalletID := ("bob"), Amount := 7,
        Description := ("second"), AdditionalData := [],
        Timestamp := ⟨2025, 10, 11, 12, 0, 0, 0⟩ } ∧
    ({ ID := ("20251011120000.000000000"), WalletID := ("alice"), Amount := 5,
       Description := ("first"), AdditionalData := [],
       Timestamp := ⟨2025, 10, 11, 12, 0, 0, 0⟩ } : Transaction).ID =
      ({ ID := ("20251011120000.000000000"), WalletID := ("bob"), Amount := 7,
         Description := ("second"), AdditionalData := [],
         Timestamp := ⟨2025, 10, 11, 12, 0, 0, 0⟩ } : Transaction).ID := by
  refine ⟨by decide, by decide, by decide, rfl⟩

theorem c7_id_order_witness :
    generateID ⟨2025, 10, 11, 12, 0, 0, 0⟩ ≠
      generateID ⟨2025, 10, 11, 12, 0, 0, 1⟩ ∧
    bytesLtb (generateID ⟨2025, 10, 11, 12, 0, 0, 0⟩).data
      (generateID ⟨2025, 10, 11, 12, 0, 0, 1⟩).data = true :=
  ⟨(c7_id_order.1 ⟨2025, 10, 11, 12, 0, 0, 0⟩ ⟨2025, 10, 11, 12, 0, 0, 1⟩
      (by decide) (by decide) (by decide)).1,
    (c7_id_order.1 ⟨2025, 10, 11, 12, 0, 0, 0⟩ ⟨2025, 10, 11, 12, 0, 0, 1⟩
      (by decide) (by decide) (by decide)).2.1⟩

/-!
### RFC3339 round trip
-/

theorem digitVal_dchar {k : Nat} (h : k < 10) : digitVal (dchar k) = some k := by
  interval_cases k <;> decide

theorem isDigitChar_dchar {k : Nat} (h : k < 10) : isDigitChar (dchar k) = true := by
  interval_cases k <;> decide

theorem padNat2_eq (n : Nat) :
    padNat 2 n = [dchar (n / 10 % 10), dchar (n % 10)] := by
  simp [padNat]

theorem padNat4_eq (n : Nat) :
    padNat 4 n = [dchar (n / 1000 % 10), dchar (n / 100 % 10),
      dchar (n / 10 % 10), dchar (n % 10)] := by
  simp [padNat, Nat.div_div_eq_div_mul]

theorem parse2_dchar {a b : Nat} (ha : a < 10) (hb : b < 10) :
    parse2 (dchar a) (dchar b) = some (a * 10 + b) := by
  simp [parse2, digitVal_dchar ha, digitVal_dchar hb]

theorem parse4_dchar {a b c d : Nat} (ha : a < 10) (hb : b < 10)
    (hc : c < 10) (hd : d < 10) :
    parse4 (dchar a) (dchar b) (dchar c) (dchar d) =
      some (a * 1000 + b * 100 + c * 10 + d) := by
  simp [parse4, digitVal_dchar ha, digitVal_dchar hb, digitVal_dchar hc,
    digitVal_dchar hd]

theorem parseDigitsAux_append (l1 l2 : List Char) :
    ∀ acc, parseDigitsAux (l1 ++ l2) acc =
      match parseDigitsAux l1 acc with
      | some a => parseDigitsAux l2 a
      | none => none := by
  induction l1 with
  | nil => intro acc; rfl
  | cons c cs ih =>
    intro acc
    simp only [List.cons_append, parseDigitsAux]
    cases digitVal c with
    | none => rfl
    | some d => exact ih _

theorem parseDigitsAux_padNat :
    ∀ (w n : Nat), n < 10 ^ w →
      ∀ acc, parseDigitsAux (padNat w n) acc = some (acc * 10 ^ w + n) := by
  intro w
  induction w with
  | zero =>
    intro n hn acc
    simp at hn
    simp [hn, padNat, parseDigitsAux]
  | succ k ih =>
    intro n hn acc
    unfold padNat
    rw [parseDigitsAux_append]
    have hdiv : n / 10 < 10 ^ k := by
      rw [Nat.div_lt_iff_lt_mul (by norm_num)]
      calc n < 10 ^ (k + 1) := hn
      _ = 10 ^ k * 10 := by ring
    rw [ih (n / 10) hdiv acc]
    simp only [parseDigitsAux, digitVal_dchar (Nat.mod_lt n (by norm_num))]
    congr 1
    have hmod : n / 10 * 10 + n % 10 = n := by omega
    calc (acc * 10 ^ k + n / 10) * 10 + n % 10
        = acc * (10 ^ k * 10) + (n / 10 * 10 + n % 10) := by ring
      _ = acc * (10 ^ k * 10) + n := by rw [hmod]
      _ = acc * 10 ^ (k + 1) + n := by ring

theorem parseDigits_padNat {w n : Nat} (hw : 0 < w) (hn : n < 10 ^ w) :
    parseDigits (padNat w n) = some n := by
  have hne : padNat w n ≠ [] := by
    intro he
    have h2 := congrArg List.length he
    rw [padNat_length] at h2
    simp at h2
    omega
  cases hform : padNat w n with
  | nil => exact absurd hform hne
  | cons c cs =>
    have h3 : parseDigits (c :: cs) = parseDigitsAux (c :: cs) 0 := rfl
    rw [h3, ← hform, parseDigitsAux_padNat w n hn 0]
    simp

theorem padNat_mem :
    ∀ (w n : Nat) (c : Char), c ∈ padNat w n → ∃ k, k < 10 ∧ c = dchar k := by
  intro w
  induction w with
  | zero => intro n c hc; cases hc
  | succ k ih =>
    intro n c hc
    unfold padNat at hc
    rcases List.mem_append.mp hc with h | h
    · exact ih (n / 10) c h
    · simp at h
      exact ⟨n % 10, Nat.mod_lt n (by norm_num), h⟩

theorem fracChars_digits :
    ∀ (w ns : Nat) (c : Char), c ∈ fracChars w ns → isDigitChar c = true := by
  intro w
  induction w with
  | zero => intro ns c hc; cases hc
  | succ k ih =>
    intro ns c hc
    unfold fracChars at hc
    split at hc
    · exact ih (ns / 10) c hc
    · obtain ⟨j, hj, hcj⟩ := padNat_mem (k + 1) ns c hc
      rw [hcj]
      exact isDigitChar_dchar hj

theorem fracChars_length_le : ∀ (w ns : Nat), (fracChars w ns).length ≤ w := by
  intro w
  induction w with
  | zero => intro ns; simp [fracChars]
  | succ k ih =>
    intro ns
    unfold fracChars
    split
    · exact le_trans (ih (ns / 10)) (by omega)
    · simp [padNat_length]

theorem fracChars_ne_nil :
    ∀ (w ns : Nat), 0 < ns → ns < 10 ^ w → fracChars w ns ≠ [] := by
  intro w
  induction w with
  | zero =>
    intro ns h1 h2
    simp at h2
    omega
  | succ k ih =>
    intro ns h1 h2
    unfold fracChars
    split
    · rename_i hmod
      refine ih (ns / 10) (by omega) ?_
      rw [Nat.div_lt_iff_lt_mul (by norm_num)]
      calc ns < 10 ^ (k + 1) := h2
      _ = 10 ^ k * 10 := by ring
    · intro he
      have h3 := congrArg List.length he
      rw [padNat_length] at h3
      simp at h3

theorem takeWhile_all_append {p : Char → Bool} :
    ∀ (l : List Char) (z : Char), (∀ c ∈ l, p c = true) → p z = false →
      (l ++ [z]).takeWhile p = l := by
  intro l
  induction l with
  | nil =>
    intro z _ hz
    simp [List.takeWhile, hz]
  | cons c cs ih =>
    intro z hall hz
    simp only [List.cons_append, List.takeWhile]
    rw [hall c (List.mem_cons_self c cs)]
    simp [ih z (fun d hd => hall d (List.mem_cons_of_mem c hd)) hz]

theorem fracChars_val :
    ∀ (w ns : Nat), 0 < ns → ns < 10 ^ w →
      ∃ v, parseDigits (fracChars w ns) = some v ∧
        v * 10 ^ (w - (fracChars w ns).length) = ns := by
  intro w
  induction w with
  | zero =>
    intro ns h1 h2
    simp at h2
    omega
  | succ k ih =>
    intro ns h1 h2
    unfold fracChars
    split
    · rename_i hmod
      have hdiv : ns / 10 < 10 ^ k := by
        rw [Nat.div_lt_iff_lt_mul (by norm_num)]
        calc ns < 10 ^ (k + 1) := h2
        _ = 10 ^ k * 10 := by ring
      obtain ⟨v, hv1, hv2⟩ := ih (ns / 10) (by omega) hdiv
      refine ⟨v, hv1, ?_⟩
      have hlen := fracChars_length_le k (ns / 10)
      have hexp : k + 1 - (fracChars k (ns / 10)).length =
          (k - (fracChars k (ns / 10)).length) + 1 := by omega
      rw [hexp, pow_succ, ← mul_assoc, hv2]
      omega
    · refine ⟨ns, parseDigits_padNat (by omega) h2, ?_⟩
      rw [padNat_length]
      simp

theorem rfc_roundtrip {t : GoTime} (hv : t.Valid) :
    timeFromRFC3339 ⟨rfc3339Chars t⟩ = some t := by
  obtain ⟨y, mo, d, h, mi, sec, ns⟩ := t
  unfold GoTime.Valid at hv
  dsimp only at hv
  obtain ⟨hy, hmo, hd, hh, hmi, hs, hn⟩ := hv
  unfold rfc3339Chars timeFromRFC3339
  dsimp only
  simp only [padNat4_eq, padNat2_eq, List.cons_append, List.nil_append]
  by_cases hns : ns = 0
  · subst hns
    simp only [parse4_dchar (Nat.mod_lt _ (by norm_num)) (Nat.mod_lt _ (by norm_num))
        (Nat.mod_lt _ (by norm_num)) (Nat.mod_lt _ (by norm_num)),
      parse2_dchar (Nat.mod_lt _ (by norm_num)) (Nat.mod_lt _ (by norm_num))]
    simp only [reduceIte, List.nil_append, if_pos rfl, Option.some.injEq,
      GoTime.mk.injEq]
    refine ⟨by omega, by omega, by omega, by omega, by omega, by omega, trivial⟩
  · have hns10 : ns < 10 ^ 9 := lt_of_lt_of_le hn (by norm_num)
    have hpos : 0 < ns := Nat.pos_of_ne_zero hns
    have htw : List.takeWhile isDigitChar (fracChars 9 ns ++ ['Z']) =
        fracChars 9 ns :=
      takeWhile_all_append _ 'Z' (fracChars_digits 9 ns) (by decide)
    have hdrop : List.drop (fracChars 9 ns).length (fracChars 9 ns ++ ['Z']) =
        ['Z'] := List.drop_left _ _
    have hnnil := fracChars_ne_nil 9 ns hpos hns10
    have hlen0 : (fracChars 9 ns).length ≠ 0 := by
      simpa [List.length_eq_zero] using hnnil
    have hlen9 : ¬ 9 < (fracChars 9 ns).length :=
      not_lt.mpr (fracChars_length_le 9 ns)
    obtain ⟨v, hv1, hv2⟩ := fracChars_val 9 ns hpos hns10
    simp only [if_neg hns, List.cons_append,
      parse4_dchar (Nat.mod_lt _ (by norm_num)) (Nat.mod_lt _ (by norm_num))
        (Nat.mod_lt _ (by norm_num)) (Nat.mod_lt _ (by norm_num)),
      parse2_dchar (Nat.mod_lt _ (by norm_num)) (Nat.mod_lt _ (by norm_num)),
      htw, hdrop, hv1]
    simp [hlen0, hlen9, Option.some.injEq, GoTime.mk.injEq, hv2]
    refine ⟨by omega, by omega, by omega, by omega, by omega, by omega⟩

/-- C5: encoding a Wallet or Transaction with ToJSON and decoding with
FromJSON (into a zero value, as `json.Unmarshal` does) returns the original
value — including both an empty `additional_data` mapping (omitted on the
wire via `omitempty`, left at its zero value on decode) and a populated
one. Timestamps must be calendar-valid for the fixed-width RFC3339 text to
be faithful. -/
theorem c5_json_roundtrip :
    (∀ w : Wallet, Wallet.FromJSON (Wallet.ToJSON w) zeroWallet = some w) ∧
    (∀ t : Transaction, t.Timestamp.Valid →
      Transaction.FromJSON (Transaction.ToJSON t) zeroTransaction = some t) := by
  constructor
  · intro w
    obtain ⟨wid, bal⟩ := w
    simp [Wallet.FromJSON, Wallet.ToJSON, applyWalletField, zeroWallet,
      List.foldlM]
  · intro t hv
    obtain ⟨id, wid, amt, desc, ad, ts⟩ := t
    simp only at hv
    by_cases had : ad = []
    · subst had
      simp [Transaction.FromJSON, Transaction.ToJSON, applyTransactionField,
        zeroTransaction, List.foldlM, rfc_roundtrip hv]
    · simp [Transaction.FromJSON, Transaction.ToJSON, applyTransactionField,
        zeroTransaction, List.foldlM, had, rfc_roundtrip hv]

theorem c5_json_roundtrip_witness :
    Wallet.FromJSON (Wallet.ToJSON ⟨"alice", 5/2⟩) zeroWallet =
      some ⟨"alice", 5/2⟩ ∧
    GoTime.Valid ⟨2025, 10, 11, 1, 2, 3, 40⟩ ∧
    Transaction.FromJSON
        (Transaction.ToJSON ⟨"id1", "alice", 5, "hi",
          [(("k"), .jstr ("v"))], ⟨2025, 10, 11, 1, 2, 3, 40⟩⟩)
        zeroTransaction =
      some ⟨"id1", "alice", 5, "hi", [(("k"), .jstr ("v"))],
        ⟨2025, 10, 11, 1, 2, 3, 40⟩⟩ ∧
    Transaction.FromJSON
        (Transaction.ToJSON ⟨"id2", "bob", 7, "yo", [],
          ⟨2025, 10, 11, 1, 2, 3, 0⟩⟩)
        zeroTransaction =
      some ⟨"id2", "bob", 7, "yo", [], ⟨2025, 10, 11, 1, 2, 3, 0⟩⟩ :=
  ⟨c5_json_roundtrip.1 ⟨"alice", 5/2⟩, by decide,
    c5_json_roundtrip.2 _ (by decide), c5_json_roundtrip.2 _ (by decide)⟩

/-!
### The Go sort coincides with the stable sort on at most 12 elements (C4)
-/

theorem mem_insertFromRight (lt : T → T → Bool) (acc : List T) (x y : T) :
    y ∈ insertFromRight lt acc x ↔ y = x ∨ y ∈ acc := by
  induction acc with
  | nil => simp [insertFromRight]
  | cons z zs ih =>
    unfold insertFromRight
    split
    · simp only [List.mem_cons, ih]
      tauto
    · simp [List.mem_cons]

/-- Pushing a new element into the sorted prefix commutes with the trailing
element once the new element inserts strictly earlier. -/
theorem insertOrdered_append_last (lt : T → T → Bool) (x y : T)
    (hxy : lt x y = true) :
    ∀ q : List T, insertOrdered lt (q ++ [y]) x = insertOrdered lt q x ++ [y] := by
  intro q
  induction q with
  | nil => simp [insertOrdered, hxy]
  | cons z q' ih =>
    simp only [List.cons_append]
    unfold insertOrdered
    split
    · simp
    · simp [ih]

/-- An element not below any list element is appended at the end. -/
theorem insertOrdered_all_le (lt : T → T → Bool) (x : T) :
    ∀ q : List T, (∀ e ∈ q, lt x e = false) →
      insertOrdered lt q x = q ++ [x] := by
  intro q
  induction q with
  | nil => intro _; rfl
  | cons z q' ih =>
    intro hall
    unfold insertOrdered
    rw [hall z (List.mem_cons_self z q')]
    simp only [Bool.false_eq_true, if_false]
    rw [ih (fun e he => hall e (List.mem_cons_of_mem z he))]
    simp

/-- The inner loop of the Go insertion sort (walking the reversed prefix)
computes the same insertion as the spec-side left walk on a reversed-sorted
prefix. `hcmp` is the strict-weak-order composition law satisfied by all
four comparators of `sortTransactions`. -/
theorem insertFromRight_reverse (lt : T → T → Bool)
    (hcmp : ∀ a b c, lt a b = true → lt c b = false → lt a c = true) :
    ∀ (racc : List T) (x : T),
      racc.Pairwise (fun a b => lt a b = false) →
      (insertFromRight lt racc x).reverse = insertOrdered lt racc.reverse x := by
  intro racc
  induction racc with
  | nil => intro x _; rfl
  | cons y ys ih =>
    intro x hp
    rw [List.pairwise_cons] at hp
    unfold insertFromRight
    split
    · rename_i hxy
      simp only [List.reverse_cons]
      rw [ih x hp.2, insertOrdered_append_last lt x y hxy]
    · rename_i hxy
      have hxy2 : lt x y = false := by
        cases h : lt x y
        · rfl
        · exact absurd h hxy
      have hall : ∀ e ∈ ys.reverse ++ [y], lt x e = false := by
        intro e he
        rcases List.mem_append.mp he with he2 | he2
        · rw [List.mem_reverse] at he2
          cases hxe : lt x e with
          | false => rfl
          | true =>
            exact absurd (hcmp x e y hxe (hp.1 e he2)) (by rw [hxy2]; simp)
        · simp only [List.mem_singleton] at he2
          rw [he2]
          exact hxy2
      simp only [List.reverse_cons]
      rw [insertOrdered_all_le lt x (ys.reverse ++ [y]) hall]

/-- The reversed prefix stays reversed-sorted through the Go inner loop. -/
theorem insertFromRight_pairwise (lt : T → T → Bool)
    (hcmp : ∀ a b c, lt a b = true → lt c b = false → lt a c = true)
    (hasym : ∀ a b, lt a b = true → lt b a = false) :
    ∀ (racc : List T) (x : T),
      racc.Pairwise (fun a b => lt a b = false) →
      (insertFromRight lt racc x).Pairwise (fun a b => lt a b = false) := by
  intro racc
  induction racc with
  | nil => intro x _; simp [insertFromRight]
  | cons y ys ih =>
    intro x hp
    rw [List.pairwise_cons] at hp
    unfold insertFromRight
    split
    · rename_i hxy
      refine List.Pairwise.cons ?_ (ih x hp.2)
      intro e he
      rcases (mem_insertFromRight lt ys x e).mp he with he1 | he2
      · rw [he1]
        exact hasym x y hxy
      · exact hp.1 e he2
    · rename_i hxy
      have hxy2 : lt x y = false := by
        cases h : lt x y
        · rfl
        · exact absurd h hxy
      refine List.Pairwise.cons ?_ (List.Pairwise.cons hp.1 hp.2)
      intro e he
      rcases List.mem_cons.mp he with rfl | he2
      · exact hxy2
      · cases hxe : lt x e with
        | false => rfl
        | true =>
          exact absurd (hcmp x e y hxe (hp.1 e he2)) (by rw [hxy2]; simp)

theorem insSortList_eq_specStableSort (lt : T → T → Bool)
    (hcmp : ∀ a b c, lt a b = true → lt c b = false → lt a c = true)
    (hasym : ∀ a b, lt a b = true → lt b a = false) (l : List T) :
    insSortList lt l = specStableSort lt l := by
  unfold insSortList specStableSort
  suffices h : ∀ (ll racc : List T),
      racc.Pairwise (fun a b => lt a b = false) →
      (ll.foldl (fun acc x => insertFromRight lt acc x) racc).reverse =
        ll.foldl (fun acc x => insertOrdered lt acc x) racc.reverse by
    simpa using h l []
  intro ll
  induction ll with
  | nil => intro racc _; simp
  | cons x xs ih =>
    intro racc hp
    simp only [List.foldl_cons]
    rw [ih (insertFromRight lt racc x)
        (insertFromRight_pairwise lt hcmp hasym racc x hp),
      insertFromRight_reverse lt hcmp racc x hp]

/-- `pdqsort_func` on a range of at most 12 elements is exactly
`insertionSort_func` on that range. -/
theorem pdqsortGo_small (lt : T → T → Bool) (dflt : T) (fuel : Nat)
    (arr : Array T) (a b limit : Nat) (wb wp : Bool) (h : b - a ≤ 12)
    (hf : 0 < fuel) :
    pdqsortGo lt dflt fuel arr a b limit wb wp =
      insertionSortRange lt arr a b := by
  cases fuel with
  | zero => exact absurd hf (by omega)
  | succ f =>
    unfold pdqsortGo
    dsimp only
    rw [if_pos h]

/-- `sort.Slice` on at most 12 elements is the left-to-right insertion
sort on the list. -/
theorem goSortSlice_small (lt : T → T → Bool) (dflt : T) (l : List T)
    (h : l.length ≤ 12) : goSortSlice lt dflt l = insSortList lt l := by
  unfold goSortSlice
  rw [pdqsortGo_small lt dflt _ _ 0 l.length _ _ _ (by simpa using h)
    (by omega)]
  unfold insertionSortRange
  rw [if_pos ⟨Nat.zero_le _, by simp⟩]
  simp

theorem goTimeLtb_cmp (a b c : GoTime) (h1 : GoTime.ltb a b = true)
    (h2 : GoTime.ltb c b = false) : GoTime.ltb a c = true := by
  have h3 : ¬ (GoTime.ltb c b = true) := by simp [h2]
  rw [GoTime.ltb_iff] at h1 h3 ⊢
  omega

theorem goTimeLtb_cmp2 (a b c : GoTime) (h1 : GoTime.ltb b a = true)
    (h2 : GoTime.ltb b c = false) : GoTime.ltb c a = true := by
  have h3 : ¬ (GoTime.ltb b c = true) := by simp [h2]
  rw [GoTime.ltb_iff] at h1 h3 ⊢
  omega

theorem goTimeLtb_asym (a b : GoTime) (h1 : GoTime.ltb a b = true) :
    GoTime.ltb b a = false := by
  cases h2 : GoTime.ltb b a
  · rfl
  · exfalso
    rw [GoTime.ltb_iff] at h1 h2
    omega

theorem ltTimestampAsc_cmp (a b c : Transaction)
    (h1 : ltTimestampAsc a b = true) (h2 : ltTimestampAsc c b = false) :
    ltTimestampAsc a c = true :=
  goTimeLtb_cmp a.Timestamp b.Timestamp c.Timestamp h1 h2

theorem ltTimestampAsc_asym (a b : Transaction)
    (h1 : ltTimestampAsc a b = true) : ltTimestampAsc b a = false :=
  goTimeLtb_asym a.Timestamp b.Timestamp h1

theorem ltTimestampDesc_cmp (a b c : Transaction)
    (h1 : ltTimestampDesc a b = true) (h2 : ltTimestampDesc c b = false) :
    ltTimestampDesc a c = true :=
  goTimeLtb_cmp2 a.Timestamp b.Timestamp c.Timestamp h1 h2

theorem ltTimestampDesc_asym (a b : Transaction)
    (h1 : ltTimestampDesc a b = true) : ltTimestampDesc b a = false :=
  goTimeLtb_asym b.Timestamp a.Timestamp h1

theorem ltAmountAsc_cmp (a b c : Transaction)
    (h1 : ltAmountAsc a b = true) (h2 : ltAmountAsc c b = false) :
    ltAmountAsc a c = true := by
  simp only [ltAmountAsc, decide_eq_true_eq, decide_eq_false_iff_not,
    not_lt] at h1 h2 ⊢
  exact lt_of_lt_of_le h1 h2

theorem ltAmountAsc_asym (a b : Transaction)
    (h1 : ltAmountAsc a b = true) : ltAmountAsc b a = false := by
  simp only [ltAmountAsc, decide_eq_true_eq, decide_eq_false_iff_not,
    not_lt] at h1 ⊢
  exact le_of_lt h1

theorem ltAmountDesc_cmp (a b c : Transaction)
    (h1 : ltAmountDesc a b = true) (h2 : ltAmountDesc c b = false) :
    ltAmountDesc a c = true := by
  simp only [ltAmountDesc, decide_eq_true_eq, decide_eq_false_iff_not,
    not_lt] at h1 h2 ⊢
  exact lt_of_le_of_lt h2 h1

theorem ltAmountDesc_asym (a b : Transaction)
    (h1 : ltAmountDesc a b = true) : ltAmountDesc b a = false := by
  simp only [ltAmountDesc, decide_eq_true_eq, decide_eq_false_iff_not,
    not_lt] at h1 ⊢
  exact le_of_lt h1

set_option maxHeartbeats 3200000 in
/-- C4 (counterexample): on the thirteen-transaction scan result `c4Scan`
the Go sort (`sort.Slice` of go1.20 is pdqsort, which is not stable) swaps
the two transactions of amount 9, so `DB.sortTransactions` does not return
the stable sort of the scanned transactions: the tie is NOT broken by
storage scan order. -/
theorem c4_go_sort_not_stable :
    sortTransactions c4Scan ("amount") ("ASC") ≠
      specSortTransactions c4Scan ("amount") ("ASC") := by decide

/-- C4 (amended): for `sort_by` ∈ \x7btimestamp, amount\x7d and `sort_order` ∈
\x7bASC, DESC\x7d, when the wallet has at most 12 scanned transactions
(`sort.Slice` then runs its insertion-sort branch, which IS stable) the
sequence `GetTransactionsByWallet` sorts — before the offset/limit
window — equals the stable sort of the scanned transactions by the
requested field in the requested direction, and the returned page is the
offset/limit window of that stable sort. -/
theorem c4_stable_sort_small (s : Store) (w sb so : String)
    (limit offset : Int)
    (hsb : sb = ("timestamp") ∨ sb = ("amount"))
    (hso : so = ("ASC") ∨ so = ("DESC"))
    (hlen : (storeScan s w).length ≤ 12) :
    sortTransactions (storeScan s w) sb so =
      specSortTransactions (storeScan s w) sb so ∧
    GetTransactionsByWallet s w limit offset sb so =
      paginate (specSortTransactions (storeScan s w) sb so) limit offset := by
  have key : sortTransactions (storeScan s w) sb so =
      specSortTransactions (storeScan s w) sb so := by
    rcases hsb with rfl | rfl <;> rcases hso with rfl | rfl
    · show goSortSlice ltTimestampAsc zeroTransaction (storeScan s w) =
        specStableSort ltTimestampAsc (storeScan s w)
      rw [goSortSlice_small _ zeroTransaction _ hlen]
      exact insSortList_eq_specStableSort ltTimestampAsc ltTimestampAsc_cmp
        ltTimestampAsc_asym _
    · show goSortSlice ltTimestampDesc zeroTransaction (storeScan s w) =
        specStableSort ltTimestampDesc (storeScan s w)
      rw [goSortSlice_small _ zeroTransaction _ hlen]
      exact insSortList_eq_specStableSort ltTimestampDesc ltTimestampDesc_cmp
        ltTimestampDesc_asym _
    · show goSortSlice ltAmountAsc zeroTransaction (storeScan s w) =
        specStableSort ltAmountAsc (storeScan s w)
      rw [goSortSlice_small _ zeroTransaction _ hlen]
      exact insSortList_eq_specStableSort ltAmountAsc ltAmountAsc_cmp
        ltAmountAsc_asym _
    · show goSortSlice ltAmountDesc zeroTransaction (storeScan s w) =
        specStableSort ltAmountDesc (storeScan s w)
      rw [goSortSlice_small _ zeroTransaction _ hlen]
      exact insSortList_eq_specStableSort ltAmountDesc ltAmountDesc_cmp
        ltAmountDesc_asym _
  refine ⟨key, ?_⟩
  unfold GetTransactionsByWallet
  rw [key]

theorem c4_stable_sort_small_witness :
    ((("amount") : String) = ("timestamp") ∨
      (("amount") : String) = ("amount")) ∧
    ((("ASC") : String) = ("ASC") ∨ (("ASC") : String) = ("DESC")) ∧
    (storeScan [(txWalletKeyS ("w") ("02"), Val.tv (c4tx ("02") 5)),
      (txWalletKeyS ("w") ("01"), Val.tv (c4tx ("01") 9))] ("w")).length ≤
        12 ∧
    (sortTransactions (storeScan [(txWalletKeyS ("w") ("02"),
        Val.tv (c4tx ("02") 5)), (txWalletKeyS ("w") ("01"),
        Val.tv (c4tx ("01") 9))] ("w")) ("amount") ("ASC") =
      specSortTransactions (storeScan [(txWalletKeyS ("w") ("02"),
        Val.tv (c4tx ("02") 5)), (txWalletKeyS ("w") ("01"),
        Val.tv (c4tx ("01") 9))] ("w")) ("amount") ("ASC") ∧
    GetTransactionsByWallet [(txWalletKeyS ("w") ("02"),
        Val.tv (c4tx ("02") 5)), (txWalletKeyS ("w") ("01"),
        Val.tv (c4tx ("01") 9))] ("w") 1 1 ("amount") ("ASC") =
      paginate (specSortTransactions (storeScan [(txWalletKeyS ("w") ("02"),
        Val.tv (c4tx ("02") 5)), (txWalletKeyS ("w") ("01"),
        Val.tv (c4tx ("01") 9))] ("w")) ("amount") ("ASC")) 1 1) :=
  ⟨Or.inr rfl, Or.inl rfl, by decide,
    c4_stable_sort_small _ ("w") ("amount") ("ASC") 1 1 (Or.inr rfl)
      (Or.inl rfl) (by decide)⟩

/-!
### Balance invariant (C1)
-/

theorem GetWallet_walletID (s : Store) (w : String)
    (hWF : WalletRecordWF s w) : (GetWallet s w).WalletID = w := by
  unfold GetWallet
  cases hg : storeGet s (walletKeyS w) with
  | none => rfl
  | some v =>
    obtain ⟨wr, rfl, hwid⟩ := hWF v hg
    simpa [decodeWalletVal] using hwid

theorem storeSet_fresh (k : List Char) (v : Val) :
    ∀ s : Store, k ∉ s.map Prod.fst → storeSet s k v = s ++ [(k, v)] := by
  intro s
  induction s with
  | nil => intro _; rfl
  | cons e s ih =>
    obtain ⟨ek, ev⟩ := e
    intro h
    simp only [List.map_cons, List.mem_cons] at h
    push_neg at h
    unfold storeSet
    rw [if_neg (fun he => h.1 he.symm), ih h.2]
    simp

theorem storeSet_keys (k : List Char) (v : Val) :
    ∀ (s : Store) (q : List Char), q ∈ (storeSet s k v).map Prod.fst →
      q = k ∨ q ∈ s.map Prod.fst := by
  intro s
  induction s with
  | nil =>
    intro q h
    simp only [storeSet, List.map_cons, List.map_nil, List.mem_singleton] at h
    exact Or.inl h
  | cons e s ih =>
    obtain ⟨ek, ev⟩ := e
    intro q h
    unfold storeSet at h
    by_cases he : ek = k
    · rw [if_pos he] at h
      simp only [List.map_cons, List.mem_cons] at h ⊢
      rcases h with h | h
      · exact Or.inr (Or.inl h)
      · exact Or.inr (Or.inr h)
    · rw [if_neg he] at h
      simp only [List.map_cons, List.mem_cons] at h ⊢
      rcases h with h | h
      · exact Or.inr (Or.inl h)
      · rcases ih q h with h2 | h2
        · exact Or.inl h2
        · exact Or.inr (Or.inr h2)

theorem scanFilter_set_other (w : String) (k : List Char) (v : Val)
    (hk : (scanKeyS w).isPrefixOf k = false) :
    ∀ s : Store, scanFilter (storeSet s k v) w = scanFilter s w := by
  intro s
  induction s with
  | nil => simp [storeSet, scanFilter, hk]
  | cons e s ih =>
    obtain ⟨ek, ev⟩ := e
    unfold storeSet
    by_cases he : ek = k
    · subst he
      rw [if_pos rfl]
      unfold scanFilter
      simp [List.filter_cons, hk]
    · rw [if_neg he]
      unfold scanFilter at ih ⊢
      simp only [List.filter_cons]
      cases hp : (scanKeyS w).isPrefixOf ek
      · simpa [hp] using ih
      · simpa [hp] using ih

theorem scanFilter_append (s1 s2 : Store) (w : String) :
    scanFilter (s1 ++ s2) w = scanFilter s1 w ++ scanFilter s2 w := by
  simp [scanFilter]

theorem walletKeyS_inj {a b : String} (h : walletKeyS a = walletKeyS b) :
    a = b := by
  rw [walletKeyS_eq, walletKeyS_eq] at h
  exact strData_inj (List.append_cancel_left h)

theorem wkey_ne_txwkey (a w i : String) (ha : ColonFree a) :
    walletKeyS a ≠ txWalletKeyS w i := by
  intro h
  rw [walletKeyS_eq, txWalletKeyS_eq] at h
  have h3 := List.append_cancel_left h
  exact ha (show ':' ∈ a.data by rw [h3]; simp)

theorem txkey_ne_txwkey (a w i : String) : txKeyS a ≠ txWalletKeyS w i := by
  intro h
  rw [txKeyS_eq, txWalletKeyS_eq] at h
  exact absurd (firstSeven h (by decide) (by decide)) (by decide)

theorem txwkey_inj {w1 i1 w2 i2 : String} (h1 : ColonFree w1)
    (h2 : ColonFree w2) (h : txWalletKeyS w1 i1 = txWalletKeyS w2 i2) :
    w1 = w2 ∧ i1 = i2 := by
  rw [txWalletKeyS_eq, txWalletKeyS_eq] at h
  have h3 := List.append_cancel_left h
  obtain ⟨hw, hrest⟩ := colon_split w1.data w2.data h1 h2 _ _ h3
  have hi := List.append_cancel_left hrest
  exact ⟨strData_inj hw, strData_inj (by simpa using hi)⟩

theorem scanKey_isPrefix_txwkey (w i : String) :
    (scanKeyS w).isPrefixOf (txWalletKeyS w i) = true := by
  rw [List.isPrefixOf_iff_prefix, scanKeyS_eq, txWalletKeyS_eq]
  exact ⟨i.data, by simp⟩

theorem scanKey_not_prefix_wkey (w u : String) (hw : ColonFree w)
    (hu : ColonFree u) : (scanKeyS w).isPrefixOf (walletKeyS u) = false := by
  have hnp : ¬ scanKeyS w <+: walletKeyS u := by
    intro h
    rw [scanKeyS_eq, walletKeyS_eq] at h
    have h3 := (List.prefix_append_right_inj _).mp h
    have hmem : ':' ∈ w.data ++ ':' :: (("transaction").data ++ [':']) := by
      simp
    exact hu (h3.subset hmem)
  cases hb : (scanKeyS w).isPrefixOf (walletKeyS u)
  · rfl
  · exact absurd (List.isPrefixOf_iff_prefix.mp hb) hnp

theorem scanKey_not_prefix_txkey (w i : String) :
    (scanKeyS w).isPrefixOf (txKeyS i) = false := by
  have hnp : ¬ scanKeyS w <+: txKeyS i := by
    intro h
    rw [scanKeyS_eq, txKeyS_eq] at h
    obtain ⟨t, ht⟩ := h
    rw [List.append_assoc] at ht
    exact absurd (firstSeven ht (by decide) (by decide)) (by decide)
  cases hb : (scanKeyS w).isPrefixOf (txKeyS i)
  · rfl
  · exact absurd (List.isPrefixOf_iff_prefix.mp hb) hnp

theorem scanKey_not_prefix_txwkey_other (w u i : String) (hw : ColonFree w)
    (hu : ColonFree u) (hne : u ≠ w) :
    (scanKeyS w).isPrefixOf (txWalletKeyS u i) = false := by
  cases hb : (scanKeyS w).isPrefixOf (txWalletKeyS u i)
  · rfl
  · exfalso
    have h := List.isPrefixOf_iff_prefix.mp hb
    rw [scanKeyS_eq, txWalletKeyS_eq] at h
    have h3 := (List.prefix_append_right_inj _).mp h
    obtain ⟨he, _⟩ := colon_split_pre w.data u.data hw hu _ _ h3
    exact hne (strData_inj he).symm

theorem generateID_inj {t1 t2 : GoTime} (h1 : t1.Valid) (h2 : t2.Valid)
    (h : generateID t1 = generateID t2) : t1 = t2 := by
  by_contra hne
  have hdata : timeFormatChars t1 = timeFormatChars t2 := congrArg String.data h
  have htri : GoTime.ltb t1 t2 = true ∨ GoTime.ltb t2 t1 = true := by
    rw [GoTime.ltb_iff, GoTime.ltb_iff]
    obtain ⟨y1, mo1, d1, hh1, mi1, s1, n1⟩ := t1
    obtain ⟨y2, mo2, d2, hh2, mi2, s2, n2⟩ := t2
    simp only [GoTime.mk.injEq] at hne
    dsimp only
    omega
  rcases htri with hl | hl
  · exact bytesLtb_ne (timeFormat_lt h1 h2 hl) hdata
  · exact bytesLtb_ne (timeFormat_lt h2 h1 hl) hdata.symm

theorem txSum_eq_filter (s : Store) (w : String) :
    txSum s w =
      ((scanFilter s w).map (fun e => (decodeTxVal e.2).Amount)).sum := by
  unfold txSum storeScan
  have hperm : List.Perm (scanEntries s w) (scanFilter s w) := by
    have h := foldl_insertOrdered_perm entryKeyLt (scanFilter s w) ([] : Store)
    simpa [scanEntries] using h
  rw [List.map_map]
  exact (hperm.map _).sum_eq

theorem commit_get_other (s : Store) (w0 id : String) (wrec : Wallet)
    (tx : Transaction) (w : String) (hw : ColonFree w) (hne : w ≠ w0) :
    storeGet (commitStore s w0 id wrec tx) (walletKeyS w) =
      storeGet s (walletKeyS w) := by
  unfold commitStore
  rw [storeGet_set_other _ _ _ _ (wkey_ne_txwkey w w0 id hw),
    storeGet_set_other _ _ _ _ (wkey_ne_txkey w id),
    storeGet_set_other _ _ _ _ (fun h => hne (walletKeyS_inj h))]

theorem commit_get_self (s : Store) (w0 id : String) (wrec : Wallet)
    (tx : Transaction) (hw0 : ColonFree w0) :
    storeGet (commitStore s w0 id wrec tx) (walletKeyS w0) =
      some (.wv wrec) := by
  unfold commitStore
  rw [storeGet_set_other _ _ _ _ (wkey_ne_txwkey w0 w0 id hw0),
    storeGet_set_other _ _ _ _ (wkey_ne_txkey w0 id),
    storeGet_set_self]

theorem commit_scan_other (s : Store) (w0 id : String) (wrec : Wallet)
    (tx : Transaction) (w : String) (hw : ColonFree w) (hw0 : ColonFree w0)
    (hne : w ≠ w0) :
    scanFilter (commitStore s w0 id wrec tx) w = scanFilter s w := by
  unfold commitStore
  rw [scanFilter_set_other w _ _
      (scanKey_not_prefix_txwkey_other w w0 id hw hw0 (fun h => hne h.symm)),
    scanFilter_set_other w _ _ (scanKey_not_prefix_txkey w id),
    scanFilter_set_other w _ _ (scanKey_not_prefix_wkey w w0 hw hw0)]

theorem commit_scan_self (s : Store) (w0 id : String) (wrec : Wallet)
    (tx : Transaction) (hw0 : ColonFree w0)
    (hfresh : txWalletKeyS w0 id ∉ s.map Prod.fst) :
    scanFilter (commitStore s w0 id wrec tx) w0 =
      scanFilter s w0 ++ [(txWalletKeyS w0 id, .tv tx)] := by
  unfold commitStore
  have h2 : txWalletKeyS w0 id ∉
      (storeSet (storeSet s (walletKeyS w0) (.wv wrec))
        (txKeyS id) (.tv tx)).map Prod.fst := by
    intro hmem
    rcases storeSet_keys _ _ _ _ hmem with h | h
    · exact txkey_ne_txwkey id w0 id h.symm
    · rcases storeSet_keys _ _ _ _ h with h3 | h3
      · exact wkey_ne_txwkey w0 w0 id hw0 h3.symm
      · exact hfresh h3
  rw [storeSet_fresh _ _ _ h2, scanFilter_append,
    scanFilter_set_other w0 _ _ (scanKey_not_prefix_txkey w0 id),
    scanFilter_set_other w0 _ _ (scanKey_not_prefix_wkey w0 w0 hw0 hw0)]
  simp [scanFilter, scanKey_isPrefix_txwkey]

theorem commit_keys (s : Store) (w0 id : String) (wrec : Wallet)
    (tx : Transaction) (q : List Char)
    (hq : q ∈ (commitStore s w0 id wrec tx).map Prod.fst) :
    q ∈ s.map Prod.fst ∨ q = walletKeyS w0 ∨ q = txKeyS id ∨
      q = txWalletKeyS w0 id := by
  unfold commitStore at hq
  rcases storeSet_keys _ _ _ _ hq with h | h
  · exact Or.inr (Or.inr (Or.inr h))
  · rcases storeSet_keys _ _ _ _ h with h2 | h2
    · exact Or.inr (Or.inr (Or.inl h2))
    · rcases storeSet_keys _ _ _ _ h2 with h3 | h3
      · exact Or.inr (Or.inl h3)
      · exact Or.inl h3

/-- Effect of one `applyOp` on a store whose wallet record for the
operation's wallet is well-formed and whose wallet-scoped transaction key
is fresh: other wallets' records and scans are untouched, the wallet
record stays well-formed, the difference between the balance and the
logged sum is preserved, and every key of the new store is an old key or
one of the three written ones. -/
theorem applyOp_step (s : Store) (op : Op)
    (hcf : ColonFree op.walletID)
    (hWF : WalletRecordWF s op.walletID)
    (hfresh : txWalletKeyS op.walletID (generateID op.now) ∉
      s.map Prod.fst) :
    (∀ w, ColonFree w → w ≠ op.walletID →
      storeGet (applyOp s op).1 (walletKeyS w) = storeGet s (walletKeyS w) ∧
      scanFilter (applyOp s op).1 w = scanFilter s w) ∧
    WalletRecordWF (applyOp s op).1 op.walletID ∧
    GetWalletBalance (applyOp s op).1 op.walletID -
        txSum (applyOp s op).1 op.walletID =
      GetWalletBalance s op.walletID - txSum s op.walletID ∧
    (∀ q, q ∈ ((applyOp s op).1).map Prod.fst →
      q ∈ s.map Prod.fst ∨ q = walletKeyS op.walletID ∨
      q = txKeyS (generateID op.now) ∨
      q = txWalletKeyS op.walletID (generateID op.now)) := by
  cases op with
  | add w0 a d ad n =>
    dsimp only [Op.walletID, Op.now] at hcf hWF hfresh ⊢
    by_cases ha : a ≤ 0
    · have hs : (applyOp s (Op.add w0 a d ad n)).1 = s := by
        simp [applyOp, AddCurrency, if_pos ha]
      rw [hs]
      exact ⟨fun w _ _ => ⟨rfl, rfl⟩, hWF, by ring, fun q hq => Or.inl hq⟩
    · have hgw := GetWallet_walletID s w0 hWF
      have hs : (applyOp s (Op.add w0 a d ad n)).1 =
          commitStore s w0 (generateID n)
            { GetWallet s w0 with
                Balance := (GetWallet s w0).Balance + a }
            ⟨generateID n, w0, a, d, ad, n⟩ := by
        simp only [applyOp, AddCurrency, if_neg ha]
        unfold commitStore Wallet.Key Transaction.Key Transaction.WalletKey
        dsimp only
        rw [hgw]
      rw [hs]
      refine ⟨?_, ?_, ?_, ?_⟩
      · intro w hw hne
        exact ⟨commit_get_other s w0 _ _ _ w hw hne,
          commit_scan_other s w0 _ _ _ w hw hcf hne⟩
      · intro v hv
        rw [commit_get_self s w0 _ _ _ hcf] at hv
        refine ⟨{ GetWallet s w0 with
          Balance := (GetWallet s w0).Balance + a }, ?_, ?_⟩
        · exact (Option.some_inj.mp hv).symm
        · exact hgw
      · have hb : GetWalletBalance (commitStore s w0 (generateID n)
            { GetWallet s w0 with
                Balance := (GetWallet s w0).Balance + a }
            ⟨generateID n, w0, a, d, ad, n⟩) w0 =
              (GetWallet s w0).Balance + a := by
          unfold GetWalletBalance GetWallet
          rw [commit_get_self s w0 _ _ _ hcf]
          rfl
        have ht : txSum (commitStore s w0 (generateID n)
            { GetWallet s w0 with
                Balance := (GetWallet s w0).Balance + a }
            ⟨generateID n, w0, a, d, ad, n⟩) w0 = txSum s w0 + a := by
          rw [txSum_eq_filter, commit_scan_self s w0 _ _ _ hcf hfresh,
            txSum_eq_filter s w0]
          simp [decodeTxVal]
        rw [hb, ht]
        unfold GetWalletBalance
        ring
      · intro q hq
        exact commit_keys s w0 _ _ _ q hq
  | remove w0 a d ad n =>
    dsimp only [Op.walletID, Op.now] at hcf hWF hfresh ⊢
    by_cases ha : a ≤ 0
    · have hs : (applyOp s (Op.remove w0 a d ad n)).1 = s := by
        simp [applyOp, RemoveCurrency, if_pos ha]
      rw [hs]
      exact ⟨fun w _ _ => ⟨rfl, rfl⟩, hWF, by ring, fun q hq => Or.inl hq⟩
    · cases hv : storeGet s (walletKeyS w0) with
      | none =>
        have hs : (applyOp s (Op.remove w0 a d ad n)).1 = s := by
          simp [applyOp, RemoveCurrency, if_neg ha, hv]
        rw [hs]
        exact ⟨fun w _ _ => ⟨rfl, rfl⟩, hWF, by ring, fun q hq => Or.inl hq⟩
      | some v =>
        obtain ⟨wrec, rfl, hwid⟩ := hWF v hv
        have hbal : GetWalletBalance s w0 = wrec.Balance := by
          unfold GetWalletBalance GetWallet
          rw [hv]
          rfl
        by_cases hlt : wrec.Balance < a
        · have hs : (applyOp s (Op.remove w0 a d ad n)).1 = s := by
            simp only [applyOp, RemoveCurrency, if_neg ha, hv]
            dsimp only [decodeWalletVal]
            rw [if_pos hlt]
          rw [hs]
          refine ⟨fun w _ _ => ⟨rfl, rfl⟩, hWF, by ring, fun q hq => Or.inl hq⟩
        · have hs : (applyOp s (Op.remove w0 a d ad n)).1 =
              commitStore s w0 (generateID n)
                { wrec with Balance := wrec.Balance - a }
                ⟨generateID n, w0, -a, d, ad, n⟩ := by
            simp only [applyOp, RemoveCurrency, if_neg ha, hv]
            dsimp only [decodeWalletVal]
            rw [if_neg hlt]
            dsimp only
            unfold commitStore Wallet.Key Transaction.Key
              Transaction.WalletKey
            dsimp only
            rw [hwid]
          rw [hs]
          refine ⟨?_, ?_, ?_, ?_⟩
          · intro w hw hne
            exact ⟨commit_get_other s w0 _ _ _ w hw hne,
              commit_scan_other s w0 _ _ _ w hw hcf hne⟩
          · intro u hu
            rw [commit_get_self s w0 _ _ _ hcf] at hu
            refine ⟨{ wrec with Balance := wrec.Balance - a }, ?_, ?_⟩
            · exact (Option.some_inj.mp hu).symm
            · exact hwid
          · have hb : GetWalletBalance (commitStore s w0 (generateID n)
                { wrec with Balance := wrec.Balance - a }
                ⟨generateID n, w0, -a, d, ad, n⟩) w0 =
                  wrec.Balance - a := by
              unfold GetWalletBalance GetWallet
              rw [commit_get_self s w0 _ _ _ hcf]
              rfl
            have ht : txSum (commitStore s w0 (generateID n)
                { wrec with Balance := wrec.Balance - a }
                ⟨generateID n, w0, -a, d, ad, n⟩) w0 =
                  txSum s w0 + (-a) := by
              rw [txSum_eq_filter, commit_scan_self s w0 _ _ _ hcf hfresh,
                txSum_eq_filter s w0]
              simp [decodeTxVal]
            rw [hb, ht, hbal]
            ring
          · intro q hq
            exact commit_keys s w0 _ _ _ q hq

/-- Invariant induction: from a store in which every `':'`-free wallet is
well-formed and balances equal logged sums, running any list of
operations with `':'`-free wallet ids, calendar-valid and pairwise
distinct commit instants, and fresh wallet-scoped keys preserves both
properties; wallets no operation touches keep their record and scan. -/
theorem runOps_invariant :
    ∀ (ops : List Op) (s : Store),
      (∀ op ∈ ops, ColonFree (Op.walletID op) ∧ (Op.now op).Valid) →
      List.Pairwise (fun o1 o2 => Op.now o1 ≠ Op.now o2) ops →
      (∀ op ∈ ops,
        txWalletKeyS (Op.walletID op) (generateID (Op.now op)) ∉
          s.map Prod.fst) →
      (∀ w, ColonFree w →
        WalletRecordWF s w ∧ GetWalletBalance s w = txSum s w) →
      (∀ w, ColonFree w →
        WalletRecordWF (runOps s ops) w ∧
        GetWalletBalance (runOps s ops) w = txSum (runOps s ops) w) ∧
      (∀ w, ColonFree w → (∀ op ∈ ops, Op.walletID op ≠ w) →
        storeGet (runOps s ops) (walletKeyS w) =
          storeGet s (walletKeyS w) ∧
        scanFilter (runOps s ops) w = scanFilter s w) := by
  intro ops
  induction ops with
  | nil =>
    intro s _ _ _ hinv
    exact ⟨hinv, fun w _ _ => ⟨rfl, rfl⟩⟩
  | cons op rest ih =>
    intro s hops hpair hfresh hinv
    obtain ⟨hcf0, hval0⟩ := hops op (List.mem_cons_self _ _)
    have hWF0 : WalletRecordWF s op.walletID := (hinv op.walletID hcf0).1
    have hfresh0 := hfresh op (List.mem_cons_self _ _)
    obtain ⟨hother, hWF1, hdiff, hkeys⟩ :=
      applyOp_step s op hcf0 hWF0 hfresh0
    have hrun : runOps s (op :: rest) = runOps (applyOp s op).1 rest := rfl
    have hinv1 : ∀ w, ColonFree w →
        WalletRecordWF (applyOp s op).1 w ∧
        GetWalletBalance (applyOp s op).1 w = txSum (applyOp s op).1 w := by
      intro w hw
      by_cases hwe : w = op.walletID
      · subst hwe
        refine ⟨hWF1, ?_⟩
        have hbase := (hinv op.walletID hcf0).2
        linarith [hdiff]
      · obtain ⟨hg, hsc⟩ := hother w hw hwe
        refine ⟨?_, ?_⟩
        · intro v hv
          exact (hinv w hw).1 v (by rw [← hg]; exact hv)
        · have hb : GetWalletBalance (applyOp s op).1 w =
              GetWalletBalance s w := by
            unfold GetWalletBalance GetWallet
            rw [hg]
          have ht : txSum (applyOp s op).1 w = txSum s w := by
            rw [txSum_eq_filter, txSum_eq_filter, hsc]
          rw [hb, ht]
          exact (hinv w hw).2
    have hfresh1 : ∀ o ∈ rest,
        txWalletKeyS (Op.walletID o) (generateID (Op.now o)) ∉
          ((applyOp s op).1).map Prod.fst := by
      intro o ho hmem
      rcases hkeys _ hmem with h | h | h | h
      · exact hfresh o (List.mem_cons_of_mem _ ho) h
      · exact wkey_ne_txwkey op.walletID o.walletID (generateID o.now)
          hcf0 h.symm
      · exact txkey_ne_txwkey (generateID op.now) o.walletID
          (generateID o.now) h.symm
      · obtain ⟨hweq, hideq⟩ :=
          txwkey_inj (hops o (List.mem_cons_of_mem _ ho)).1 hcf0 h
        have hneq :=
          generateID_inj (hops o (List.mem_cons_of_mem _ ho)).2 hval0 hideq
        exact (List.pairwise_cons.mp hpair).1 o ho hneq.symm
    obtain ⟨ihmain, ihun⟩ := ih (applyOp s op).1
      (fun o ho => hops o (List.mem_cons_of_mem _ ho))
      (List.pairwise_cons.mp hpair).2 hfresh1 hinv1
    refine ⟨?_, ?_⟩
    · intro w hw
      rw [hrun]
      exact ihmain w hw
    · intro w hw hno
      rw [hrun]
      obtain ⟨hg1, hs1⟩ := hother w hw
        (fun he => hno op (List.mem_cons_self _ _) he.symm)
      obtain ⟨hg2, hs2⟩ := ihun w hw
        (fun o ho => hno o (List.mem_cons_of_mem _ ho))
      exact ⟨hg2.trans hg1, hs2.trans hs1⟩

/-- C1 (counterexample): wallet ids may contain `':'`, and then a
wallet-scoped transaction key of one wallet can equal the wallet record
key of another. Crediting the crafted wallet
`"w:transaction:20240102030405.000000006"` and then crediting `"w"` at
the instant whose generated id completes the collision overwrites the
crafted wallet's record with a transaction document, so its balance reads
0 while the sum of its committed transaction amounts is 5. -/
theorem c1_colon_wallet_breaks_sum :
    GetWalletBalance (runOps [] c1BadOps) c1Victim = 0 ∧
    (storeScan (runOps [] c1BadOps) c1Victim).map (fun t => t.Amount) =
      [5] ∧
    GetWalletBalance (runOps [] c1BadOps) c1Victim ≠
      txSum (runOps [] c1BadOps) c1Victim := by
  have h1 : GetWalletBalance (runOps [] c1BadOps) c1Victim = 0 := by decide
  have h2 : (storeScan (runOps [] c1BadOps) c1Victim).map
      (fun t => t.Amount) = [5] := by decide
  refine ⟨h1, h2, ?_⟩
  rw [h1]
  unfold txSum
  rw [h2]
  norm_num

/-- C1 (amended): starting from an empty store, for every sequence of
operations whose wallet ids are `':'`-free and whose commit instants are
calendar-valid and pairwise distinct, and for every `':'`-free wallet,
`GetWalletBalance` equals the sum of the amounts of the committed
transaction records of that wallet (credits positive, debits negated),
and a wallet no operation touches has balance 0. -/
theorem c1_balance_equals_logged_sum (ops : List Op)
    (h1 : ∀ op ∈ ops, ColonFree (Op.walletID op) ∧ (Op.now op).Valid)
    (h2 : List.Pairwise (fun o1 o2 => Op.now o1 ≠ Op.now o2) ops) :
    ∀ w : String, ColonFree w →
      GetWalletBalance (runOps [] ops) w = txSum (runOps [] ops) w ∧
      ((∀ op ∈ ops, Op.walletID op ≠ w) →
        GetWalletBalance (runOps [] ops) w = 0) := by
  have hbase : ∀ w, ColonFree w →
      WalletRecordWF ([] : Store) w ∧
      GetWalletBalance ([] : Store) w = txSum ([] : Store) w := by
    intro w _
    refine ⟨?_, rfl⟩
    intro v hv
    simp [storeGet] at hv
  have hfr : ∀ op ∈ ops, txWalletKeyS (Op.walletID op)
      (generateID (Op.now op)) ∉ (([] : Store)).map Prod.fst := by
    simp
  obtain ⟨hmain, hun⟩ := runOps_invariant ops [] h1 h2 hfr hbase
  intro w hw
  refine ⟨(hmain w hw).2, fun hno => ?_⟩
  obtain ⟨hg, _⟩ := hun w hw hno
  unfold GetWalletBalance GetWallet
  rw [hg]
  rfl

theorem c1_balance_equals_logged_sum_witness :
    (∀ op ∈ c1DemoOps, ColonFree (Op.walletID op) ∧ (Op.now op).Valid) ∧
    List.Pairwise (fun o1 o2 => Op.now o1 ≠ Op.now o2) c1DemoOps ∧
    ColonFree ("alice") ∧
    (GetWalletBalance (runOps [] c1DemoOps) ("alice") =
        txSum (runOps [] c1DemoOps) ("alice") ∧
      ((∀ op ∈ c1DemoOps, Op.walletID op ≠ ("alice")) →
        GetWalletBalance (runOps [] c1DemoOps) ("alice") = 0)) :=
  ⟨by decide, by decide, by decide,
    c1_balance_equals_logged_sum c1DemoOps (by decide) (by decide)
      ("alice") (by decide)⟩

end Virtigia
